import Mathlib

/-!
# Verification of the panel-data merge pipeline (merge_panel_data_v2.py)

A shallow embedding of the schema-inference / merge / interpolate / impute
layer of the repository, followed by theorems settling the frozen claims.

Modelling conventions:
* A loaded tabular file is a `RawTable`: named columns over rows of `Cell`s.
  A cell is a string, a number (`ℚ`, standing for the float the loader
  produced), or empty (`NaN`).  File input to an adapter is `Option RawTable`:
  `none` models a missing file or a load failure (`safe_read_file` returning
  `None`), which the out-of-scope loader collaborator reports.
* Numbers are `ℚ`.  `pd.to_numeric(errors=coerce)` is `toNumeric`; `NaN`
  is `none` in `Option ℚ`.
* `str(x)` applied to a numeric cell yields a decimal rendering that matches
  no country alias and no measure code; it is modelled by the inert token
  `"#num"` (no alias or code contains `#`).  `str(NaN)` is `"nan"`.
* The canonical panel is `PTable`: a list of feature-column names plus rows
  keyed by (Country, Year); `Country`/`Year` key columns are implicit.
-/

/-! ## String utilities (Python `in`, `.lower()`, `.upper()`, `.strip()`) -/

def lowerStr (s : String) : String := String.mk (s.data.map Char.toLower)

def upperStr (s : String) : String := String.mk (s.data.map Char.toUpper)

def startsWithL : List Char → List Char → Bool
  | [], _ => true
  | _ :: _, [] => false
  | a :: as, b :: bs => a == b && startsWithL as bs

def infixOfL (n : List Char) : List Char → Bool
  | [] => startsWithL n []
  | h :: t => startsWithL n (h :: t) || infixOfL n t

/-- Python `nee in hay` on strings (case-sensitive substring test). -/
def containsSub (hay nee : String) : Bool := infixOfL nee.data hay.data

/-- Case-insensitive substring test: `nee.lower() in hay.lower()`. -/
def containsCI (hay nee : String) : Bool := containsSub (lowerStr hay) (lowerStr nee)

/-- Python `str.endswith`. -/
def endsWithStr (s suf : String) : Bool := startsWithL suf.data.reverse s.data.reverse

/-- Whitespace for `str.strip()` (the ASCII whitespace the data uses). -/
def isSpaceChar (c : Char) : Bool := c == ' ' || c == '\t' || c == '\n' || c == '\r'

/-- Python `str.strip()`. -/
def stripStr (s : String) : String :=
  String.mk (((s.data.dropWhile isSpaceChar).reverse.dropWhile isSpaceChar).reverse)

/-- Python `str.isdigit()` (ASCII digits, as the data uses). -/
def isDigitStr (s : String) : Bool := !s.data.isEmpty && s.data.all (·.isDigit)

/-- Python `int()` on an all-digit string. -/
def strToNat (s : String) : Nat := s.data.foldl (fun n c => n * 10 + (c.toNat - 48)) 0

/-! ## Decimal parsing: `pd.to_numeric(errors=coerce)` on a string cell -/

def parseDigits (cs : List Char) : Option Nat :=
  if cs.isEmpty || !cs.all (·.isDigit) then none
  else some (cs.foldl (fun n c => n * 10 + (c.toNat - 48)) 0)

/-- A decimal numeral, with optional sign and fractional part; anything else
coerces to `NaN` (`none`). -/
def parseRat (s : String) : Option ℚ :=
  let cs := (stripStr s).data
  let signAndRest : Bool × List Char :=
    match cs with
    | '-' :: t => (true, t)
    | '+' :: t => (false, t)
    | t => (false, t)
  let body := signAndRest.2
  let q : Option ℚ :=
    match body.splitOn '.' with
    | [ip] => (parseDigits ip).map fun n => (n : ℚ)
    | [ip, fp] =>
      if ip.isEmpty && fp.isEmpty then none
      else if (ip.isEmpty || (ip.all (·.isDigit))) && (fp.isEmpty || fp.all (·.isDigit)) then
        some ((((parseDigits ip).getD 0 : ℚ)) + ((parseDigits fp).getD 0 : ℚ) / ((10 : ℚ) ^ fp.length))
      else none
    | _ => none
  if signAndRest.1 then q.map Neg.neg else q

/-! ## Cells and raw tables -/

inductive Cell where
  | str (s : String)
  | num (q : ℚ)
  | empty
deriving DecidableEq

/-- Python `str(x)` on a cell value (`astype(str)`); see the conventions above. -/
def cellToStr : Cell → String
  | .str s => s
  | .num _ => "#num"
  | .empty => "nan"

/-- `pd.to_numeric(x, errors=coerce)` on one cell. -/
def toNumeric : Cell → Option ℚ
  | .str s => parseRat s
  | .num q => some q
  | .empty => none

structure RawTable where
  cols : List String
  rows : List (List Cell)
deriving DecidableEq

def colIdx (t : RawTable) (c : String) : Option Nat := t.cols.findIdx? (· == c)

def getCell (t : RawTable) (row : List Cell) (c : String) : Cell :=
  match colIdx t c with
  | some i => row.getD i Cell.empty
  | none => Cell.empty

/-- Python truthiness of an `Optional[str]` column name (`if not col: ...`):
`None` and the empty string are falsy. -/
def truthyCol : Option String → Bool
  | some s => s != ""
  | none => false

/-! ## Country normalizer (`TARGET_COUNTRIES`, `COUNTRY_NAME_MAPPING`,
`standardize_country_name`) -/

def TARGET_COUNTRIES : List String :=
  ["United States", "China", "United Kingdom", "Germany", "Japan",
   "South Korea", "France", "Canada", "India", "United Arab Emirates"]

/-- The alias table, in the source's (insertion-ordered dict) order. -/
def COUNTRY_NAME_MAPPING : List (String × String) :=
  [("People\x27s Republic of China", "China"),
   ("China (People\x27s Republic of)", "China"),
   ("CHN", "China"),
   ("PRC", "China"),
   ("中国", "China"),
   ("Korea", "South Korea"),
   ("Republic of Korea", "South Korea"),
   ("Korea, Rep.", "South Korea"),
   ("KOR", "South Korea"),
   ("South Korea (Republic of Korea)", "South Korea"),
   ("韩国", "South Korea"),
   ("USA", "United States"),
   ("U.S.A.", "United States"),
   ("US", "United States"),
   ("U.S.", "United States"),
   ("United States of America", "United States"),
   ("美国", "United States"),
   ("UK", "United Kingdom"),
   ("GBR", "United Kingdom"),
   ("Great Britain", "United Kingdom"),
   ("United Kingdom of Great Britain and Northern Ireland", "United Kingdom"),
   ("英国", "United Kingdom"),
   ("DEU", "Germany"),
   ("Deutschland", "Germany"),
   ("德国", "Germany"),
   ("JPN", "Japan"),
   ("日本", "Japan"),
   ("FRA", "France"),
   ("法国", "France"),
   ("CAN", "Canada"),
   ("加拿大", "Canada"),
   ("IND", "India"),
   ("印度", "India"),
   ("UAE", "United Arab Emirates"),
   ("ARE", "United Arab Emirates"),
   ("Emirates", "United Arab Emirates"),
   ("阿联酋", "United Arab Emirates")]

/-- The body of `standardize_country_name` after `str(...).strip()`:
exact canonical match, then exact alias match, then first two-way
case-insensitive substring match over the alias table, else `None`. -/
def standardizeStripped (name : String) : Option String :=
  if name ∈ TARGET_COUNTRIES then some name
  else match COUNTRY_NAME_MAPPING.lookup name with
  | some std => some std
  | none =>
      (COUNTRY_NAME_MAPPING.find? fun p =>
        containsCI name p.1 || containsCI p.1 name).map (·.2)

/-- `standardize_country_name`: `None` (`pd.isna`) stays `None`; a string is
stripped and matched. -/
def standardize_country_name : Option String → Option String
  | none => none
  | some raw => standardizeStripped (stripStr raw)

/-- `standardize_country_name` applied to a raw cell (an empty cell is
`pd.isna`; other cells go through `str(...)`). -/
def standardizeCell : Cell → Option String
  | .empty => none
  | c => standardize_country_name (some (cellToStr c))

/-! ## Ordering used by `sort_values` / sorted group keys

pandas sorts strings lexicographically by code point and the key pair
(Country, Year) lexicographically.  `strLeChars` is that code-point order. -/

def strLeChars : List Char → List Char → Bool
  | [], _ => true
  | _ :: _, [] => false
  | a :: as, b :: bs => if a = b then strLeChars as bs else decide (a < b)

def strLeB (a b : String) : Bool := strLeChars a.data b.data

def keyLeB (a b : String × Int) : Bool :=
  if a.1 = b.1 then a.2 ≤ b.2 else strLeB a.1 b.1

/-! ## The canonical panel table -/

/-- One row of a canonical (Country, Year, feature...) table; a feature cell
that is absent or `none` is a missing value (`NaN`). -/
structure PRow where
  country : String
  year : Int
  feats : List (String × Option ℚ)
deriving DecidableEq

instance : Inhabited PRow := ⟨⟨"", 0, []⟩⟩

/-- The value of feature column `f` in row `r` (`NaN` when absent). -/
def getFeat (r : PRow) (f : String) : Option ℚ := (r.feats.lookup f).join

def rowKey (r : PRow) : String × Int := (r.country, r.year)

def rowLeB (a b : PRow) : Bool := keyLeB (rowKey a) (rowKey b)

/-- A canonical table: feature column names (the key columns Country and Year
are implicit) and rows. -/
structure PTable where
  feats : List String
  rows : List PRow
deriving DecidableEq

def sortKeys (l : List (String × Int)) : List (String × Int) :=
  List.insertionSort (fun a b => keyLeB a b = true) l

def sortRows (l : List PRow) : List PRow :=
  List.insertionSort (fun a b => rowLeB a b = true) l

def sortStrs (l : List String) : List String :=
  List.insertionSort (fun a b => strLeB a b = true) l

/-! ## Aggregations: pandas `mean`, `sum`, `max` over a group (NaN skipped) -/

/-- `mean` of a group of values: `NaN`s are skipped; an all-`NaN` (or empty)
group yields `NaN`. -/
def meanOf (l : List (Option ℚ)) : Option ℚ :=
  let ps := l.filterMap id
  if ps.isEmpty then none else some (ps.foldl (· + ·) 0 / ps.length)

/-- groupby `sum`: `NaN`s are skipped, an empty group sums to 0. -/
def sumOf (l : List (Option ℚ)) : ℚ := (l.filterMap id).foldl (· + ·) 0

/-- groupby `max`: `NaN`s are skipped; an all-`NaN` group yields `NaN`. -/
def maxOf (l : List (Option ℚ)) : Option ℚ :=
  match l.filterMap id with
  | [] => none
  | x :: xs => some (xs.foldl max x)

/-! ## OECD MSTI adapter (`process_oecd_msti`) -/

/-- Column roles detected by `process_oecd_msti`; the source's loop carries no
`is None` guard, so for each role the LAST matching column wins, and the
`elif` chain gives each column at most one role. -/
structure OecdCols where
  refArea : Option String
  timeCol : Option String
  measureCol : Option String
  valueCol : Option String
  unitCol : Option String

def detectOecdCols (cols : List String) : OecdCols :=
  cols.foldl (fun acc col =>
    let u := upperStr col
    if containsSub u "REF_AREA" || u == "COUNTRY" then { acc with refArea := some col }
    else if containsSub u "TIME_PERIOD" || containsSub u "TIME" || u == "YEAR" then
      { acc with timeCol := some col }
    else if containsSub u "MEASURE" then { acc with measureCol := some col }
    else if containsSub u "OBS_VALUE" || u == "VALUE" then { acc with valueCol := some col }
    else if containsSub u "UNIT_MEASURE" || containsSub u "UNIT" then
      { acc with unitCol := some col }
    else acc)
    ⟨none, none, none, none, none⟩

/-- `astype(int)` on a float year: truncation toward zero. -/
def yearToInt (q : ℚ) : Int := Int.tdiv q.num (q.den : Int)

/-- A row of the tall (Country, Year, Feature, Value) form the adapter pivots. -/
structure TallRow where
  country : String
  year : Int
  feature : String
  value : Option ℚ
deriving DecidableEq

/-- `pivot_table(index=[Country, Year], columns=Feature, values=Value,
aggfunc=mean).reset_index()`: one row per observed (Country, Year) key
(sorted), one column per observed feature (sorted), mean over each group. -/
def pivotTableMean (tall : List TallRow) : PTable :=
  let keys := sortKeys ((tall.map fun r => (r.country, r.year)).dedup)
  let fs := sortStrs ((tall.map (·.feature)).dedup)
  ⟨fs, keys.map fun k =>
    ⟨k.1, k.2, fs.map fun f =>
      (f, meanOf ((tall.filter fun r =>
        r.country == k.1 && r.year == k.2 && r.feature == f).map (·.value)))⟩⟩

def emptyMsti : PTable := ⟨["GERD_Million_USD", "Researchers"], []⟩

def MSTI_MEASURE_CODES : List String := ["G", "T_RS"]

/-- The unit filter mask of `process_oecd_msti`: PPP-dollar, FTE or headcount,
each a case-insensitive substring test, OR-combined. -/
def mstiUnitMask (u : String) : Bool :=
  containsCI u "USD_PPP" || containsCI u "FTE" || containsCI u "HC"

def mstiFeatureOf (m : String) : Option String :=
  if m == "G" then some "GERD_Million_USD"
  else if m == "T_RS" then some "Researchers"
  else none

def process_oecd_msti : Option RawTable → PTable
  | none => emptyMsti
  | some t =>
    let d := detectOecdCols t.cols
    if !(truthyCol d.refArea && truthyCol d.timeCol && truthyCol d.valueCol) then emptyMsti
    else
      let rc := d.refArea.getD ""
      let tc := d.timeCol.getD ""
      let vc := d.valueCol.getD ""
      let mc := d.measureCol.getD ""
      let rows1 :=
        if truthyCol d.measureCol then
          t.rows.filter fun r => (cellToStr (getCell t r mc)) ∈ MSTI_MEASURE_CODES
        else t.rows
      if rows1.isEmpty then emptyMsti
      else
        let rows2 :=
          if truthyCol d.unitCol then
            rows1.filter fun r => mstiUnitMask (cellToStr (getCell t r (d.unitCol.getD "")))
          else rows1
        let rows3 := rows2.filterMap fun r =>
          match standardizeCell (getCell t r rc) with
          | some c => if c ∈ TARGET_COUNTRIES then some (c, r) else none
          | none => none
        if rows3.isEmpty then emptyMsti
        else
          let tall := rows3.filterMap fun p =>
            match toNumeric (getCell t p.2 tc) with
            | none => none
            | some y =>
              let feat :=
                if truthyCol d.measureCol then mstiFeatureOf (cellToStr (getCell t p.2 mc))
                else some "GERD_Million_USD"
              feat.map fun f =>
                TallRow.mk p.1 (yearToInt y) f (toNumeric (getCell t p.2 vc))
          pivotTableMean tall

/-! ## Ember electricity adapter (`process_ember_electricity`) -/

structure EmberKeyCols where
  countryCol : Option String
  yearCol : Option String

/-- First detection loop of the Ember adapter: guarded (`is None`) `elif`
chain, so the FIRST matching column wins each role. -/
def detectEmberKeyCols (cols : List String) : EmberKeyCols :=
  cols.foldl (fun acc col =>
    let l := lowerStr col
    if acc.countryCol == none &&
        (containsSub l "country" || containsSub l "国家" ||
         containsSub l "area" || containsSub l "entity") then
      { acc with countryCol := some col }
    else if acc.yearCol == none && (containsSub l "year" || containsSub l "年") then
      { acc with yearCol := some col }
    else acc) ⟨none, none⟩

/-- Second detection loop: collects total-generation and renewables columns
(both a generation keyword and a total/renewable keyword must appear). -/
def detectEmberGenCols (cols : List String) : List String × List String :=
  cols.foldl (fun acc col =>
    let l := lowerStr col
    if containsSub l "total" &&
        (containsSub l "generation" || containsSub l "generat" || containsSub l "发电") then
      (acc.1 ++ [col], acc.2)
    else if (containsSub l "renewable" || containsSub l "可再生" || containsSub l "clean") &&
        (containsSub l "generation" || containsSub l "发电") then
      (acc.1, acc.2 ++ [col])
    else acc) ([], [])

def emptyEmber : PTable := ⟨["Total_Generation_TWh", "Renewables_Generation_TWh"], []⟩

def process_ember_electricity : Option RawTable → PTable
  | none => emptyEmber
  | some t =>
    let k := detectEmberKeyCols t.cols
    let gens := (detectEmberGenCols t.cols).1
    let renews := (detectEmberGenCols t.cols).2
    if !(truthyCol k.countryCol && truthyCol k.yearCol) then emptyEmber
    else
      let cc := k.countryCol.getD ""
      let yc := k.yearCol.getD ""
      let rows1 := t.rows.filterMap fun r =>
        match standardizeCell (getCell t r cc) with
        | some c => if c ∈ TARGET_COUNTRIES then some (c, r) else none
        | none => none
      if rows1.isEmpty then emptyEmber
      else
        let fs := (if gens.isEmpty then [] else ["Total_Generation_TWh"]) ++
          (if renews.isEmpty then [] else ["Renewables_Generation_TWh"])
        ⟨fs, rows1.filterMap fun p =>
          match toNumeric (getCell t p.2 yc) with
          | none => none
          | some y => some (PRow.mk p.1 (yearToInt y)
              ((if gens.isEmpty then []
                else [("Total_Generation_TWh", toNumeric (getCell t p.2 (gens.getD 0 "")))]) ++
               (if renews.isEmpty then []
                else [("Renewables_Generation_TWh",
                       toNumeric (getCell t p.2 (renews.getD 0 "")))])))⟩

/-! ## OECD broadband adapter (`process_oecd_broadband`) -/

structure BroadbandCols where
  countryCol : Option String
  yearCol : Option String
  valueCol : Option String
  measureCol : Option String

/-- Detection loop of the broadband adapter (unguarded: last match wins). -/
def detectBroadbandCols (cols : List String) : BroadbandCols :=
  cols.foldl (fun acc col =>
    let u := upperStr col
    if containsSub u "REF_AREA" || u == "COUNTRY" then { acc with countryCol := some col }
    else if containsSub u "TIME_PERIOD" || containsSub u "TIME" || u == "YEAR" then
      { acc with yearCol := some col }
    else if containsSub u "OBS_VALUE" || u == "VALUE" then { acc with valueCol := some col }
    else if containsSub u "MEASURE" then { acc with measureCol := some col }
    else acc) ⟨none, none, none, none⟩

def emptyBroadband : PTable := ⟨["Fibre_Percentage"], []⟩

def process_oecd_broadband : Option RawTable → PTable
  | none => emptyBroadband
  | some t =>
    let d := detectBroadbandCols t.cols
    if !(truthyCol d.countryCol && truthyCol d.yearCol && truthyCol d.valueCol) then
      emptyBroadband
    else
      let cc := d.countryCol.getD ""
      let yc := d.yearCol.getD ""
      let vc := d.valueCol.getD ""
      let rows1 := t.rows.filterMap fun r =>
        match standardizeCell (getCell t r cc) with
        | some c => if c ∈ TARGET_COUNTRIES then some (c, r) else none
        | none => none
      if rows1.isEmpty then emptyBroadband
      else
        let obs := rows1.filterMap fun p =>
          match toNumeric (getCell t p.2 yc) with
          | none => none
          | some y => some (p.1, yearToInt y, toNumeric (getCell t p.2 vc))
        let keys := sortKeys ((obs.map fun r => (r.1, r.2.1)).dedup)
        ⟨["Fibre_Percentage"], keys.map fun k =>
          PRow.mk k.1 k.2 [("Fibre_Percentage",
            meanOf ((obs.filter fun r => r.1 == k.1 && r.2.1 == k.2).map (·.2.2)))]⟩

/-! ## TOP500 compute-capacity adapter (`process_top500_compute`) -/

structure Top500Cols where
  countryCol : Option String
  yearCol : Option String
  rmaxCol : Option String

/-- Detection loop of the TOP500 adapter: guarded `elif` chain (first match
wins each role). -/
def detectTop500Cols (cols : List String) : Top500Cols :=
  cols.foldl (fun acc col =>
    let l := lowerStr col
    if acc.countryCol == none && (containsSub l "country" || containsSub l "国家") then
      { acc with countryCol := some col }
    else if acc.yearCol == none && (containsSub l "year" || containsSub l "年") then
      { acc with yearCol := some col }
    else if acc.rmaxCol == none &&
        (containsSub l "rmax" || containsSub l "performance" || containsSub l "性能") then
      { acc with rmaxCol := some col }
    else acc) ⟨none, none, none⟩

/-- The fixed year stamped when the TOP500 source has no year column
(`df_grouped[Year] = 2024`). -/
def TOP500_FALLBACK_YEAR : Int := 2024

def emptyTop500 : PTable := ⟨["Compute_Power_Rmax"], []⟩

/-- Order of the keys of `groupby([Country, Year]).sum().reset_index()`
before the year is cast to int: Year is still the coerced numeric. -/
def keyLeQB (a b : String × ℚ) : Bool :=
  if a.1 = b.1 then decide (a.2 ≤ b.2) else strLeB a.1 b.1

def process_top500_compute : Option RawTable → PTable
  | none => emptyTop500
  | some t =>
    let d := detectTop500Cols t.cols
    if !truthyCol d.countryCol then emptyTop500
    else
      let cc := d.countryCol.getD ""
      let rows1 := t.rows.filterMap fun r =>
        match standardizeCell (getCell t r cc) with
        | some c => if c ∈ TARGET_COUNTRIES then some (c, r) else none
        | none => none
      if rows1.isEmpty then emptyTop500
      else if truthyCol d.rmaxCol && truthyCol d.yearCol then
        let rc := d.rmaxCol.getD ""
        let yc := d.yearCol.getD ""
        let obs := rows1.filterMap fun p =>
          (toNumeric (getCell t p.2 yc)).map fun y =>
            (p.1, y, toNumeric (getCell t p.2 rc))
        let keys := List.insertionSort (fun a b => keyLeQB a b = true)
          ((obs.map fun r => (r.1, r.2.1)).dedup)
        ⟨["Compute_Power_Rmax"], keys.map fun k =>
          PRow.mk k.1 (yearToInt k.2) [("Compute_Power_Rmax",
            some (sumOf ((obs.filter fun r => r.1 == k.1 && r.2.1 == k.2).map (·.2.2))))]⟩
      else if truthyCol d.rmaxCol then
        let rc := d.rmaxCol.getD ""
        let keys := sortStrs ((rows1.map (·.1)).dedup)
        ⟨["Compute_Power_Rmax"], keys.map fun c =>
          PRow.mk c TOP500_FALLBACK_YEAR [("Compute_Power_Rmax",
            some (sumOf ((rows1.filter fun p => p.1 == c).map fun p =>
              toNumeric (getCell t p.2 rc))))]⟩
      else emptyTop500

/-! ## Stanford AI Index folder adapter (`process_stanford_ai_index`) -/

/-- The year columns of a file: a column name that is all digits with
integer value in [2010, 2024] (`str(col).isdigit() and 2010 <= int(str(col))
<= 2024`). -/
def stanfordYearColNames (t : RawTable) : List String :=
  t.cols.filter fun c =>
    isDigitStr c && decide (2010 ≤ strToNat c) && decide (strToNat c ≤ 2024)

/-- Whether one of the first 20 stringified values of the first column
standardizes to a (truthy) target country. -/
def hasCountryInFirst20 (t : RawTable) : Bool :=
  !t.cols.isEmpty && !t.rows.isEmpty &&
    ((t.rows.map fun r => cellToStr (r.getD 0 Cell.empty)).take 20).any fun v =>
      match standardize_country_name (some v) with
      | some c => c != "" && TARGET_COUNTRIES.contains c
      | none => false

structure StanfordContrib where
  country : String
  year : Int
  value : Option ℚ
  sourceFile : String
deriving DecidableEq

/-- `melt` a relevant file to long form, standardize the country column and
keep the target-country rows, with the year columns as integer years. -/
def meltStanfordFile (name : String) (t : RawTable) : List StanfordContrib :=
  let countryCol := t.cols.getD 0 ""
  ((stanfordYearColNames t).flatMap fun yc =>
    t.rows.map fun r => (getCell t r countryCol, yc, getCell t r yc)).filterMap fun e =>
      match standardizeCell e.1 with
      | some c =>
        if c ∈ TARGET_COUNTRIES then
          some (StanfordContrib.mk c (strToNat e.2.1 : Int) (toNumeric e.2.2) name)
        else none
      | none => none

/-- Feature name inferred from the source filename. -/
def classify_feature (filename : String) : String :=
  let l := lowerStr filename
  if containsSub l "patent" then "AI_Patents"
  else if containsSub l "publication" || containsSub l "paper" then "AI_Publications"
  else if containsSub l "citation" then "AI_Citations"
  else if containsSub l "model" then "AI_Models"
  else "AI_Metric"

/-- `groupby([Country, Year, Feature_Type]).max()` followed by
`pivot_table(aggfunc=first)` over the now-unique keys: the cell at
(Country, Year, Feature) is the maximum of the contributed values. -/
def pivotTableMax (tall : List TallRow) : PTable :=
  let keys := sortKeys ((tall.map fun r => (r.country, r.year)).dedup)
  let fs := sortStrs ((tall.map (·.feature)).dedup)
  ⟨fs, keys.map fun k =>
    ⟨k.1, k.2, fs.map fun f =>
      (f, maxOf ((tall.filter fun r =>
        r.country == k.1 && r.year == k.2 && r.feature == f).map (·.value)))⟩⟩

def emptyStanford : PTable := ⟨[], []⟩

/-- The folder input is the listing of the AI-index folder: `none` when the
folder does not exist; a file whose table is `none` failed to read and is
skipped by the inner `except: continue`. -/
def process_stanford_ai_index : Option (List (String × Option RawTable)) → PTable
  | none => emptyStanford
  | some files =>
    let contribs := (files.filter fun f => endsWithStr f.1 ".csv").flatMap fun f =>
      match f.2 with
      | none => []
      | some t =>
        if t.rows.isEmpty then []
        else if hasCountryInFirst20 t && !(stanfordYearColNames t).isEmpty then
          meltStanfordFile f.1 t
        else []
    if contribs.isEmpty then emptyStanford
    else
      pivotTableMax (contribs.map fun e =>
        TallRow.mk e.country e.year (classify_feature e.sourceFile) e.value)

/-! ## Tortoise composite-index adapter (`process_tortoise_index`) -/

structure TortoiseCols where
  countryCol : Option String
  yearCol : Option String
  policyCol : Option String
  commercialCol : Option String

/-- Detection loop of the Tortoise adapter: guarded `elif` chain (first
match wins each role). -/
def detectTortoiseCols (cols : List String) : TortoiseCols :=
  cols.foldl (fun acc col =>
    let l := lowerStr col
    if acc.countryCol == none &&
        (containsSub l "country" || containsSub l "国家" || containsSub l "nation") then
      { acc with countryCol := some col }
    else if acc.yearCol == none && (containsSub l "year" || containsSub l "年") then
      { acc with yearCol := some col }
    else if acc.policyCol == none &&
        ((containsSub l "government" && containsSub l "strategy") ||
         containsSub l "政策" || containsSub l "policy") then
      { acc with policyCol := some col }
    else if acc.commercialCol == none &&
        (containsSub l "commercial" || containsSub l "商业") then
      { acc with commercialCol := some col }
    else acc) ⟨none, none, none, none⟩

/-- The fixed year stamped when the Tortoise source has no year column
(`df_result[Year] = 2024`). -/
def TORTOISE_FALLBACK_YEAR : Int := 2024

def emptyTortoise : PTable := ⟨["Policy_Score", "Commercial_Score"], []⟩

def process_tortoise_index : Option RawTable → PTable
  | none => emptyTortoise
  | some t =>
    let d := detectTortoiseCols t.cols
    if !truthyCol d.countryCol then emptyTortoise
    else
      let cc := d.countryCol.getD ""
      let rows1 := t.rows.filterMap fun r =>
        match standardizeCell (getCell t r cc) with
        | some c => if c ∈ TARGET_COUNTRIES then some (c, r) else none
        | none => none
      if rows1.isEmpty then emptyTortoise
      else
        let fs := (if truthyCol d.policyCol then ["Policy_Score"] else []) ++
          (if truthyCol d.commercialCol then ["Commercial_Score"] else [])
        let featsOf : List Cell → List (String × Option ℚ) := fun r =>
          (if truthyCol d.policyCol then
            [("Policy_Score", toNumeric (getCell t r (d.policyCol.getD "")))] else []) ++
          (if truthyCol d.commercialCol then
            [("Commercial_Score", toNumeric (getCell t r (d.commercialCol.getD "")))] else [])
        if !truthyCol d.yearCol then
          ⟨fs, rows1.map fun p => PRow.mk p.1 TORTOISE_FALLBACK_YEAR (featsOf p.2)⟩
        else
          ⟨fs, rows1.filterMap fun p =>
            (toNumeric (getCell t p.2 (d.yearCol.getD ""))).map fun y =>
              PRow.mk p.1 (yearToInt y) (featsOf p.2)⟩

/-! ## Merge engine (`merge_all_data`)

Successive `pd.merge(..., on=[Country, Year], how=outer)` over the non-empty
tables.  The adapters contribute pairwise distinct feature-column names, so
the outer join concatenates the disjoint feature maps of matching rows. -/

def outerJoin (t1 t2 : List PRow) : List PRow :=
  (t1.flatMap fun r1 =>
    let ms := t2.filter fun r2 => rowKey r2 == rowKey r1
    if ms.isEmpty then [r1]
    else ms.map fun r2 => PRow.mk r1.country r1.year (r1.feats ++ r2.feats))
  ++ t2.filter fun r2 => (t1.filter fun r1 => rowKey r1 == rowKey r2).isEmpty

/-- The running merge of the loop body: skip an empty table, seed with the
first non-empty one, outer-join each later one. -/
def mergeStep (acc : Option PTable) (t : PTable) : Option PTable :=
  if t.rows.isEmpty then acc
  else match acc with
    | none => some t
    | some m => some (PTable.mk (m.feats ++ t.feats) (outerJoin m.rows t.rows))

def mergeFold (tables : List PTable) : Option PTable := tables.foldl mergeStep none

def merge_all_data (tables : List PTable) : PTable :=
  match mergeFold tables with
  | none => ⟨[], []⟩
  | some m => if m.rows.isEmpty then ⟨[], []⟩ else ⟨m.feats, sortRows m.rows⟩

/-! ## Temporal interpolator (`interpolate_missing_years`)

`Series.interpolate(method=linear, limit_direction=both)` over the default
positional index: interior gaps are linear between the surrounding known
points, leading and trailing gaps take the nearest known value. -/

def knownPoints : Nat → List (Option ℚ) → List (Nat × ℚ)
  | _, [] => []
  | i, none :: vs => knownPoints (i + 1) vs
  | i, some x :: vs => (i, x) :: knownPoints (i + 1) vs

def interpAt (known : List (Nat × ℚ)) (i : Nat) : Option ℚ :=
  match (known.filter fun p => p.1 ≤ i).getLast?, (known.filter fun p => i ≤ p.1).head? with
  | some p1, some p2 =>
    if p2.1 = p1.1 then some p1.2
    else some (p1.2 + (p2.2 - p1.2) * ((i : ℚ) - (p1.1 : ℚ)) / ((p2.1 : ℚ) - (p1.1 : ℚ)))
  | none, some p2 => some p2.2
  | some p1, none => some p1.2
  | none, none => none

def interpSeries (v : List (Option ℚ)) : List (Option ℚ) :=
  (List.range v.length).map (interpAt (knownPoints 0 v))

def minYearOf (rs : List PRow) : Int :=
  match rs.map (·.year) with
  | [] => 0
  | y :: ys => ys.foldl min y

def maxYearOf (rs : List PRow) : Int :=
  match rs.map (·.year) with
  | [] => 0
  | y :: ys => ys.foldl max y

/-- `range(min_year, max_year + 1)`. -/
def yearRange (a b : Int) : List Int :=
  (List.range ((b - a).toNat + 1)).map fun i : Nat => a + (i : Int)

/-- One country's interpolated block: the left join of the full year range
with the country's rows, then per-feature linear interpolation over the
positional index. -/
def countryBlock (feats : List String) (c : String) (rs : List PRow) : List PRow :=
  let joined := (yearRange (minYearOf rs) (maxYearOf rs)).flatMap fun y =>
    match rs.filter fun r => r.year == y with
    | [] => [PRow.mk c y []]
    | ms => ms.map fun r => PRow.mk c y r.feats
  let series := feats.map fun f => (f, interpSeries (joined.map fun r => getFeat r f))
  joined.enum.map fun p =>
    PRow.mk c p.2.year (series.map fun fs => (fs.1, fs.2.getD p.1 none))

def interpolate_missing_years (p : PTable) : PTable :=
  let blocks := TARGET_COUNTRIES.filterMap fun c =>
    let rs := p.rows.filter fun r => r.country == c
    if rs.isEmpty then none else some (countryBlock p.feats c rs)
  if blocks.isEmpty then p
  else ⟨p.feats, blocks.flatten⟩

/-! ## Cross-feature imputer (`impute_with_commercial_score`) -/

def IMPUTE_SCOPE : List String := ["China", "India", "United Arab Emirates"]

/-- Set column `k` of one row to `v` (`df.loc[mask, col] = ...` on that row). -/
def setFeat (fs : List (String × Option ℚ)) (k : String) (v : Option ℚ) :
    List (String × Option ℚ) :=
  fs.map fun p => if p.1 = k then (p.1, v) else p

/-- The first column whose name contains both a business keyword and an AI
keyword, case-insensitively. -/
def findBusinessCol (feats : List String) : Option String :=
  feats.find? fun c => containsCI c "business" && containsCI c "ai"

def impute_with_commercial_score (p : PTable) : PTable :=
  if !(p.feats.contains "Commercial_Score") then p
  else
    match findBusinessCol p.feats with
    | some b =>
      ⟨p.feats, p.rows.map fun r =>
        if IMPUTE_SCOPE.contains r.country && getFeat r b == none then
          PRow.mk r.country r.year (setFeat r.feats b (getFeat r "Commercial_Score"))
        else r⟩
    | none =>
      ⟨p.feats ++ ["Business_AI_Adoption"], p.rows.map fun r =>
        PRow.mk r.country r.year
          (r.feats ++ [("Business_AI_Adoption", getFeat r "Commercial_Score")])⟩

/-! ## The main pipeline gate (`main`, steps 2-6)

`main` merges the six adapter outputs; when the merged table is empty it
stops (`return`) without writing the output artifact, otherwise it
interpolates, imputes and persists.  `none` models the stopped run. -/

def run_pipeline (adapterOutputs : List PTable) : Option PTable :=
  let merged := merge_all_data adapterOutputs
  if merged.rows.isEmpty then none
  else some (impute_with_commercial_score (interpolate_missing_years merged))

/-! ## Derived notions used by the claims -/

def panelKeys (p : PTable) : List (String × Int) := p.rows.map rowKey

/-- Every feature key occurring in a row is one of the table's feature
columns (true of every dataframe-backed table). -/
def featsSubset (p : PTable) : Prop :=
  ∀ r ∈ p.rows, ∀ kv ∈ r.feats, kv.1 ∈ p.feats

/-- C7, claim side: the row-level filter the spec describes for the R&D
adapter — measure code in the two-code allow-list and, when a unit column was
detected, a PPP / FTE / headcount unit keyword (case-insensitive substring,
OR-combined). -/
def mstiRowSurvivesSpec (t : RawTable) (mc uc : String) (hasUnit : Bool)
    (r : List Cell) : Bool :=
  (cellToStr (getCell t r mc) ∈ MSTI_MEASURE_CODES) &&
  (!hasUnit || mstiUnitMask (cellToStr (getCell t r uc)))

/-- C7, claim side: the surviving row contributes to key (Country, Year) and
feature `f`. -/
def mstiRowContributes (t : RawTable) (rc tc mc : String) (c : String) (y : Int)
    (f : String) (r : List Cell) : Bool :=
  (standardizeCell (getCell t r rc) == some c) &&
  ((toNumeric (getCell t r tc)).map yearToInt == some y) &&
  (mstiFeatureOf (cellToStr (getCell t r mc)) == some f)

/-- C8, claim side: a 4-digit year string between 2010 and 2024, as the claim
words the year-column test. -/
def isFourDigitYearName (c : String) : Bool :=
  c.data.length == 4 && isDigitStr c &&
  decide (2010 ≤ strToNat c) && decide (strToNat c ≤ 2024)

/-! ## Concrete tables used by the claims' examples and counterexamples -/

/-- C1 / §8 example: United States rows for 2018 (A=10) and 2022 (A=30). -/
def exPanelInterp : PTable :=
  ⟨["A"], [⟨"United States", 2018, [("A", some 10)]⟩,
           ⟨"United States", 2022, [("A", some 30)]⟩]⟩

/-- C4 / §8 example, left table. -/
def exMergeA : PTable :=
  ⟨["A"], [⟨"United States", 2020, [("A", some 1)]⟩,
           ⟨"United States", 2021, [("A", some 2)]⟩]⟩

/-- C4 / §8 example, right table. -/
def exMergeB : PTable := ⟨["B"], [⟨"United States", 2020, [("B", some 9)]⟩]⟩

/-- C2: a TOP500 source with country and performance columns but no year
column. -/
def exTop500NoYear : RawTable :=
  ⟨["Country", "Rmax"], [[.str "China", .num 5], [.str "China", .num 7]]⟩

/-- C2: a Tortoise source with country and commercial columns but no year
column. -/
def exTortoiseNoYear : RawTable :=
  ⟨["Country", "Commercial readiness"], [[.str "China", .num 3]]⟩

/-- C3: an electricity source in which two alias spellings of the United
States share the year 2020. -/
def exEmberDup : RawTable :=
  ⟨["Entity", "Year", "Total Generation"],
   [[.str "USA", .num 2020, .num 1],
    [.str "United States of America", .num 2020, .num 2]]⟩

/-- C8: an AI-index file whose only year-like column is named `02010` —
`isdigit` and in [2010, 2024] after `int()`, but not a 4-digit year string. -/
def exAiFileZeros : RawTable :=
  ⟨["Country", "02010"], [[.str "China", .num 7]]⟩

/-- C8: first of two patent files contributing to (China, 2015). -/
def exAiFilePat1 : RawTable := ⟨["Country", "2015"], [[.str "China", .num 3]]⟩

/-- C8: second of two patent files contributing to (China, 2015). -/
def exAiFilePat2 : RawTable := ⟨["Country", "2015"], [[.str "China", .num 5]]⟩

/-- C6 witness: a panel with a business-AI column and a commercial score. -/
def exPanelImpute : PTable :=
  ⟨["Business_AI_Adoption_pct", "Commercial_Score"],
   [⟨"China", 2020, [("Business_AI_Adoption_pct", none), ("Commercial_Score", some 4)]⟩,
    ⟨"France", 2020, [("Business_AI_Adoption_pct", none), ("Commercial_Score", some 6)]⟩]⟩

/-- C6 witness: a panel with a commercial score and no business-AI column. -/
def exPanelImputeNoBiz : PTable :=
  ⟨["Commercial_Score"], [⟨"France", 2020, [("Commercial_Score", some 6)]⟩]⟩

/-- C7 witness: an OECD MSTI source exercising the measure and unit filters
and the mean aggregation. -/
def exMstiTable : RawTable :=
  ⟨["REF_AREA", "TIME_PERIOD", "MEASURE2", "OBS_VALUE", "UNIT"],
   [[.str "CHN", .num 2020, .str "G", .num 10, .str "usd_ppp"],
    [.str "CHN", .num 2020, .str "G", .num 20, .str "FTE"],
    [.str "CHN", .num 2020, .str "T_RS", .num 7, .str "HC"],
    [.str "CHN", .num 2020, .str "G", .num 99, .str "other"],
    [.str "CHN", .num 2020, .str "X", .num 50, .str "FTE"]]⟩

/-- C1, claim side: the value a country's rows `rs` hold for feature `f` at
year `y` (`NaN` when the year or the cell is absent); the year lookup is
unambiguous when the country's years are distinct. -/
def origFeat (rs : List PRow) (f : String) (y : Int) : Option ℚ :=
  match rs.find? fun r => r.year == y with
  | some r => getFeat r f
  | none => none

/-- The merged rows observed for country `c` (`df[df["Country"] == c]`). -/
def obsRows (p : PTable) (c : String) : List PRow :=
  p.rows.filter fun r => r.country == c

/-- The interpolator output restricted to country `c`. -/
def outRows (p : PTable) (c : String) : List PRow :=
  (interpolate_missing_years p).rows.filter fun r => r.country == c

/-! # Theorems -/

/-! ## The comparators are total orders -/

theorem strLeChars_total : ∀ as bs : List Char,
    strLeChars as bs = true ∨ strLeChars bs as = true
  | [], _ => Or.inl rfl
  | _ :: _, [] => Or.inr rfl
  | a :: as, b :: bs => by
    by_cases hab : a = b
    · subst hab
      rcases strLeChars_total as bs with h | h
      · left; simpa [strLeChars] using h
      · right; simpa [strLeChars] using h
    · rcases lt_or_gt_of_ne hab with h | h
      · left; simp [strLeChars, hab, h]
      · right; simp [strLeChars, Ne.symm hab, h]

theorem strLeChars_trans : ∀ as bs cs : List Char, strLeChars as bs = true →
    strLeChars bs cs = true → strLeChars as cs = true
  | [], _, _, _, _ => rfl
  | _ :: _, [], _, h1, _ => by simp [strLeChars] at h1
  | _ :: _, _ :: _, [], _, h2 => by simp [strLeChars] at h2
  | a :: as, b :: bs, c :: cs, h1, h2 => by
    by_cases hab : a = b <;> by_cases hbc : b = c
    · subst hab; subst hbc
      simp only [strLeChars, if_pos rfl] at h1 h2 ⊢
      exact strLeChars_trans as bs cs h1 h2
    · subst hab
      simpa [strLeChars, hbc] using h2
    · subst hbc
      simpa [strLeChars, hab] using h1
    · simp only [strLeChars, if_neg hab] at h1
      simp only [strLeChars, if_neg hbc] at h2
      have hac : a < c := lt_trans (of_decide_eq_true h1) (of_decide_eq_true h2)
      simp [strLeChars, ne_of_lt hac, hac]

theorem strLeChars_antisymm : ∀ as bs : List Char, strLeChars as bs = true →
    strLeChars bs as = true → as = bs
  | [], [], _, _ => rfl
  | [], _ :: _, _, h2 => by simp [strLeChars] at h2
  | _ :: _, [], h1, _ => by simp [strLeChars] at h1
  | a :: as, b :: bs, h1, h2 => by
    by_cases hab : a = b
    · subst hab
      simp only [strLeChars, if_pos rfl] at h1 h2
      rw [strLeChars_antisymm as bs h1 h2]
    · simp only [strLeChars, if_neg hab, if_neg (Ne.symm hab)] at h1 h2
      exact absurd (lt_trans (of_decide_eq_true h1) (of_decide_eq_true h2)) (lt_irrefl a)

theorem strLeB_total (a b : String) : strLeB a b = true ∨ strLeB b a = true :=
  strLeChars_total a.data b.data

theorem strLeB_trans {a b c : String} (h1 : strLeB a b = true)
    (h2 : strLeB b c = true) : strLeB a c = true :=
  strLeChars_trans a.data b.data c.data h1 h2

theorem strLeB_antisymm : ∀ {a b : String}, strLeB a b = true → strLeB b a = true → a = b
  | ⟨da⟩, ⟨db⟩, h1, h2 => congrArg String.mk (strLeChars_antisymm da db h1 h2)

theorem keyLeB_total (a b : String × Int) : keyLeB a b = true ∨ keyLeB b a = true := by
  unfold keyLeB
  by_cases h : a.1 = b.1
  · rw [if_pos h, if_pos h.symm]
    simp only [decide_eq_true_eq]
    exact le_total a.2 b.2
  · rw [if_neg h, if_neg (Ne.symm h)]
    exact strLeB_total a.1 b.1

theorem keyLeB_trans {a b c : String × Int} (h1 : keyLeB a b = true)
    (h2 : keyLeB b c = true) : keyLeB a c = true := by
  unfold keyLeB at h1 h2 ⊢
  by_cases hab : a.1 = b.1 <;> by_cases hbc : b.1 = c.1
  · rw [if_pos hab] at h1
    rw [if_pos hbc] at h2
    rw [if_pos (hab.trans hbc)]
    simp only [decide_eq_true_eq] at h1 h2 ⊢
    exact le_trans h1 h2
  · have hac : ¬ a.1 = c.1 := fun e => hbc (hab.symm.trans e)
    rw [if_neg hbc] at h2
    rw [if_neg hac]
    rwa [hab]
  · have hac : ¬ a.1 = c.1 := fun e => hab (e.trans hbc.symm)
    rw [if_neg hab] at h1
    rw [if_neg hac]
    rwa [← hbc]
  · rw [if_neg hab] at h1
    rw [if_neg hbc] at h2
    by_cases hac : a.1 = c.1
    · exact absurd (strLeB_antisymm h1 (by rw [hac]; exact h2)) hab
    · rw [if_neg hac]
      exact strLeB_trans h1 h2

theorem rowLeB_total (a b : PRow) : rowLeB a b = true ∨ rowLeB b a = true :=
  keyLeB_total (rowKey a) (rowKey b)

theorem rowLeB_trans {a b c : PRow} (h1 : rowLeB a b = true) (h2 : rowLeB b c = true) :
    rowLeB a c = true :=
  keyLeB_trans h1 h2

instance : IsTotal PRow fun a b => rowLeB a b = true := ⟨rowLeB_total⟩

instance : IsTrans PRow fun a b => rowLeB a b = true := ⟨fun _ _ _ => rowLeB_trans⟩

/-! ## The normalizer lands in the canonical set -/

theorem mapping_snd_target : ∀ p ∈ COUNTRY_NAME_MAPPING, p.2 ∈ TARGET_COUNTRIES := by
  decide

theorem lookup_mem_pairs : ∀ (l : List (String × String)) (a b : String),
    l.lookup a = some b → (a, b) ∈ l
  | [], _, _, h => by simp [List.lookup] at h
  | (k, v) :: l, a, b, h => by
    cases hk : (a == k) with
    | true =>
      simp only [List.lookup, hk] at h
      obtain rfl := Option.some.inj h
      have ha : a = k := by simpa using hk
      subst ha
      exact List.mem_cons_self _ _
    | false =>
      simp only [List.lookup, hk] at h
      exact List.mem_cons_of_mem _ (lookup_mem_pairs l a b h)

theorem standardizeStripped_mem_target {s c : String}
    (h : standardizeStripped s = some c) : c ∈ TARGET_COUNTRIES := by
  unfold standardizeStripped at h
  by_cases h1 : s ∈ TARGET_COUNTRIES
  · rw [if_pos h1] at h
    obtain rfl := Option.some.inj h
    exact h1
  · rw [if_neg h1] at h
    cases h2 : COUNTRY_NAME_MAPPING.lookup s with
    | some std =>
      rw [h2] at h
      obtain rfl := Option.some.inj h
      exact mapping_snd_target _ (lookup_mem_pairs _ _ _ h2)
    | none =>
      rw [h2] at h
      cases h3 : COUNTRY_NAME_MAPPING.find? fun p =>
          containsCI s p.1 || containsCI p.1 s with
      | some pr =>
        rw [h3] at h
        simp only [Option.map_some] at h
        obtain rfl := Option.some.inj h
        exact mapping_snd_target _ (List.mem_of_find?_eq_some h3)
      | none =>
        rw [h3] at h
        simp at h

theorem standardize_mem_target {o : Option String} {c : String}
    (h : standardize_country_name o = some c) : c ∈ TARGET_COUNTRIES := by
  match o with
  | none => simp [standardize_country_name] at h
  | some s => exact standardizeStripped_mem_target h

theorem standardizeCell_mem_target {cell : Cell} {c : String}
    (h : standardizeCell cell = some c) : c ∈ TARGET_COUNTRIES := by
  cases cell with
  | empty => simp [standardizeCell] at h
  | str s =>
    exact standardize_mem_target
      (show standardize_country_name (some (cellToStr (Cell.str s))) = some c from h)
  | num q =>
    exact standardize_mem_target
      (show standardize_country_name (some (cellToStr (Cell.num q))) = some c from h)

/-- C5: the country normalizer tries, in order and first match wins: exact
match against the canonical set (identity), exact match against the alias
table, case-insensitive two-way substring match against the aliases, and
otherwise returns `None`; the input is trimmed first and a missing value
returns `None` with no match attempted.  In particular
normalize("PRC") = "China", normalize("  U.S.A. ") = "United States",
normalize("Mars") = None, and normalize is the identity on every canonical
country. -/
theorem C5_normalizer_order :
    standardize_country_name none = none ∧
    (∀ s : String, stripStr s ∈ TARGET_COUNTRIES →
      standardize_country_name (some s) = some (stripStr s)) ∧
    (∀ s std : String, stripStr s ∉ TARGET_COUNTRIES →
      COUNTRY_NAME_MAPPING.lookup (stripStr s) = some std →
      standardize_country_name (some s) = some std) ∧
    (∀ s alias0 std : String, stripStr s ∉ TARGET_COUNTRIES →
      COUNTRY_NAME_MAPPING.lookup (stripStr s) = none →
      (COUNTRY_NAME_MAPPING.find? fun p =>
        containsCI (stripStr s) p.1 || containsCI p.1 (stripStr s)) = some (alias0, std) →
      standardize_country_name (some s) = some std) ∧
    (∀ s : String, stripStr s ∉ TARGET_COUNTRIES →
      COUNTRY_NAME_MAPPING.lookup (stripStr s) = none →
      (COUNTRY_NAME_MAPPING.find? fun p =>
        containsCI (stripStr s) p.1 || containsCI p.1 (stripStr s)) = none →
      standardize_country_name (some s) = none) ∧
    standardize_country_name (some "PRC") = some "China" ∧
    standardize_country_name (some "  U.S.A. ") = some "United States" ∧
    standardize_country_name (some "Mars") = none ∧
    (∀ c ∈ TARGET_COUNTRIES, standardize_country_name (some c) = some c) := by
  refine ⟨rfl, ?_, ?_, ?_, ?_, by decide, by decide, by decide, by decide⟩
  · intro s h
    simp [standardize_country_name, standardizeStripped, h]
  · intro s std h1 h2
    simp [standardize_country_name, standardizeStripped, h1, h2]
  · intro s alias0 std h1 h2 h3
    simp [standardize_country_name, standardizeStripped, h1, h2, h3]
  · intro s h1 h2 h3
    simp [standardize_country_name, standardizeStripped, h1, h2, h3]

/-- C10: a non-null input whose trimmed form is the empty string does not
normalize to `None`: the empty string is a substring of every alias, so the
substring step returns the canonical value of the first alias-table entry,
which is "China". -/
theorem C10_whitespace_normalizes_to_china (s : String) (h : stripStr s = "") :
    standardize_country_name (some s) = some "China" := by
  show standardizeStripped (stripStr s) = some "China"
  rw [h]
  decide

theorem C10_witness :
    stripStr "   " = "" ∧ standardize_country_name (some "   ") = some "China" :=
  ⟨by decide, C10_whitespace_normalizes_to_china "   " (by decide)⟩

/-- C2, counterexample: the claim asserts the composite-index fallback year
is distinct from the compute-capacity fallback year, but both adapters stamp
the same fixed year 2024: on concrete no-year-column sources both outputs
carry year 2024 only. -/
theorem C2_counterexample :
    TOP500_FALLBACK_YEAR = TORTOISE_FALLBACK_YEAR ∧
    (process_top500_compute (some exTop500NoYear)).rows.map (fun r => r.year) = [2024] ∧
    (process_tortoise_index (some exTortoiseNoYear)).rows.map (fun r => r.year) = [2024] :=
  ⟨rfl, by decide, by decide⟩

/-- C4: the Merge Engine performs a successive full outer join of the
non-empty inputs on (Country, Year): the spec's two-table example yields
exactly 2 rows, the 2020 row carrying A=1 and B=9, the 2021 row carrying A=2
with B missing; and for every sequence of input tables the result is sorted
ascending by (Country, Year) (Year is integer-typed by construction). -/
theorem C4_merge_engine :
    (∀ tables : List PTable,
      List.Sorted (fun a b => rowLeB a b = true) (merge_all_data tables).rows) ∧
    (merge_all_data [exMergeA, exMergeB]).rows.map rowKey =
      [("United States", 2020), ("United States", 2021)] ∧
    ((merge_all_data [exMergeA, exMergeB]).rows.map fun r =>
      (getFeat r "A", getFeat r "B")) = [(some 1, some 9), (some 2, none)] := by
  refine ⟨?_, by decide, by decide⟩
  intro tables
  unfold merge_all_data
  cases hm : mergeFold tables with
  | none => simp
  | some m =>
    by_cases he : m.rows.isEmpty
    · simp [he]
    · simp only [he, Bool.false_eq_true, if_false]
      exact List.sorted_insertionSort _ m.rows

/-- The country-standardize-and-filter stage, restated as a direct filter of
the source rows: a row survives exactly when its country cell standardizes to
`c` (the canonical-set membership test is redundant because the normalizer
only returns canonical names). -/
theorem countryFilter_spec (t : RawTable) (cc c : String) (rows : List (List Cell)) :
    (((rows.filterMap fun r =>
        match standardizeCell (getCell t r cc) with
        | some c0 => if c0 ∈ TARGET_COUNTRIES then some (c0, r) else none
        | none => none).filter fun p => p.1 == c).map fun p => p.2) =
    rows.filter fun r => standardizeCell (getCell t r cc) == some c := by
  induction rows with
  | nil => rfl
  | cons r rows ih =>
    rw [List.filterMap_cons, List.filter_cons]
    cases hs : standardizeCell (getCell t r cc) with
    | none => simpa using ih
    | some c0 =>
      have hmem := standardizeCell_mem_target hs
      by_cases hc : c0 = c
      · subst hc
        simp [hmem, ih]
      · simp [hmem, hc, ih]

/-- C2, amended: when the compute-capacity adapter finds no year column it
sums the performance metric per country and stamps every resulting row with
the fixed fallback year 2024; when the composite-index adapter finds no year
column it also stamps every row with the fixed fallback year 2024 — the two
fallback years are equal, not distinct. -/
theorem C2_fallback_years (t u : RawTable)
    (h1 : truthyCol (detectTop500Cols t.cols).countryCol = true)
    (h2 : truthyCol (detectTop500Cols t.cols).rmaxCol = true)
    (h3 : truthyCol (detectTop500Cols t.cols).yearCol = false)
    (h4 : truthyCol (detectTortoiseCols u.cols).countryCol = true)
    (h5 : truthyCol (detectTortoiseCols u.cols).yearCol = false) :
    TOP500_FALLBACK_YEAR = TORTOISE_FALLBACK_YEAR ∧
    (∀ r ∈ (process_top500_compute (some t)).rows,
      r.year = TOP500_FALLBACK_YEAR ∧
      getFeat r "Compute_Power_Rmax" = some (sumOf
        ((t.rows.filter fun row =>
            standardizeCell (getCell t row ((detectTop500Cols t.cols).countryCol.getD "")) ==
              some r.country).map fun row =>
          toNumeric (getCell t row ((detectTop500Cols t.cols).rmaxCol.getD ""))))) ∧
    (∀ r ∈ (process_tortoise_index (some u)).rows, r.year = TORTOISE_FALLBACK_YEAR) := by
  refine ⟨rfl, ?_, ?_⟩
  · intro r hr
    simp only [process_top500_compute] at hr
    rw [if_neg (by simp [h1])] at hr
    by_cases hempty : (t.rows.filterMap fun row =>
        match standardizeCell (getCell t row ((detectTop500Cols t.cols).countryCol.getD "")) with
        | some c0 => if c0 ∈ TARGET_COUNTRIES then some (c0, row) else none
        | none => none).isEmpty
    · rw [if_pos hempty] at hr
      simp [emptyTop500] at hr
    · rw [if_neg hempty] at hr
      rw [if_neg (by simp [h2, h3])] at hr
      rw [if_pos h2] at hr
      obtain ⟨c, hc, rfl⟩ := List.mem_map.mp hr
      refine ⟨rfl, ?_⟩
      show (List.lookup "Compute_Power_Rmax"
        [("Compute_Power_Rmax", _)]).join = _
      rw [List.lookup]
      simp only [beq_self_eq_true, Option.join]
      rw [← countryFilter_spec t ((detectTop500Cols t.cols).countryCol.getD "") c t.rows]
      rw [List.map_map]
      rfl
  · intro r hr
    simp only [process_tortoise_index] at hr
    rw [if_neg (by simp [h4])] at hr
    by_cases hempty : (u.rows.filterMap fun row =>
        match standardizeCell (getCell u row ((detectTortoiseCols u.cols).countryCol.getD "")) with
        | some c0 => if c0 ∈ TARGET_COUNTRIES then some (c0, row) else none
        | none => none).isEmpty
    · rw [if_pos hempty] at hr
      simp [emptyTortoise] at hr
    · rw [if_neg hempty] at hr
      rw [if_pos (by simp [h5])] at hr
      obtain ⟨p, hp, rfl⟩ := List.mem_map.mp hr
      rfl

theorem C2_witness :
    TOP500_FALLBACK_YEAR = TORTOISE_FALLBACK_YEAR :=
  (C2_fallback_years exTop500NoYear exTortoiseNoYear (by decide) (by decide) (by decide)
    (by decide) (by decide)).1

theorem mergeFold_none : ∀ tables : List PTable, (∀ t ∈ tables, t.rows = []) →
    mergeFold tables = none
  | [], _ => rfl
  | t :: ts, h => by
    show List.foldl mergeStep (mergeStep none t) ts = none
    have ht : t.rows = [] := h t (List.mem_cons_self _ _)
    have hs : mergeStep none t = none := by simp [mergeStep, ht]
    rw [hs]
    exact mergeFold_none ts fun t2 h2 => h t2 (List.mem_cons_of_mem _ h2)

/-- C9: no failure escapes an adapter: a missing source (input `none`) and an
undetected required column each yield the empty table with that adapter's
declared column shape; a merge over all-empty tables is the empty result,
not an error; and a run whose merged table is empty stops without producing
the output artifact.  (Each adapter is a total function of its input, so no
exception can propagate out of the adapter boundary in the model.) -/
theorem C9_adapter_error_handling :
    (process_oecd_msti none = emptyMsti ∧
     process_ember_electricity none = emptyEmber ∧
     process_oecd_broadband none = emptyBroadband ∧
     process_top500_compute none = emptyTop500 ∧
     process_stanford_ai_index none = emptyStanford ∧
     process_tortoise_index none = emptyTortoise) ∧
    (∀ t : RawTable,
      (truthyCol (detectOecdCols t.cols).refArea && truthyCol (detectOecdCols t.cols).timeCol &&
        truthyCol (detectOecdCols t.cols).valueCol) = false →
      process_oecd_msti (some t) = emptyMsti) ∧
    (∀ t : RawTable,
      (truthyCol (detectEmberKeyCols t.cols).countryCol &&
        truthyCol (detectEmberKeyCols t.cols).yearCol) = false →
      process_ember_electricity (some t) = emptyEmber) ∧
    (∀ t : RawTable,
      (truthyCol (detectBroadbandCols t.cols).countryCol &&
        truthyCol (detectBroadbandCols t.cols).yearCol &&
        truthyCol (detectBroadbandCols t.cols).valueCol) = false →
      process_oecd_broadband (some t) = emptyBroadband) ∧
    (∀ t : RawTable, truthyCol (detectTop500Cols t.cols).countryCol = false →
      process_top500_compute (some t) = emptyTop500) ∧
    (∀ t : RawTable, truthyCol (detectTortoiseCols t.cols).countryCol = false →
      process_tortoise_index (some t) = emptyTortoise) ∧
    (∀ tables : List PTable, (∀ t ∈ tables, t.rows = []) →
      merge_all_data tables = ⟨[], []⟩) ∧
    (∀ tables : List PTable, (merge_all_data tables).rows = [] →
      run_pipeline tables = none) := by
  refine ⟨⟨rfl, rfl, rfl, rfl, rfl, rfl⟩, ?_, ?_, ?_, ?_, ?_, ?_, ?_⟩
  · intro t h
    simp only [process_oecd_msti]
    rw [if_pos (by simp [h])]
  · intro t h
    simp only [process_ember_electricity]
    rw [if_pos (by simp [h])]
  · intro t h
    simp only [process_oecd_broadband]
    rw [if_pos (by simp [h])]
  · intro t h
    simp only [process_top500_compute]
    rw [if_pos (by simp [h])]
  · intro t h
    simp only [process_tortoise_index]
    rw [if_pos (by simp [h])]
  · intro tables h
    unfold merge_all_data
    rw [mergeFold_none tables h]
  · intro tables h
    unfold run_pipeline
    simp [h]

theorem lookup_setFeat_ne (k : String) (v : Option ℚ) (f : String) (hf : f ≠ k) :
    ∀ fs : List (String × Option ℚ), (setFeat fs k v).lookup f = fs.lookup f
  | [] => rfl
  | (k0, v0) :: fs => by
    have ih := lookup_setFeat_ne k v f hf fs
    have hsf : setFeat ((k0, v0) :: fs) k v =
        (if k0 = k then (k0, v) else (k0, v0)) :: setFeat fs k v := rfl
    rw [hsf]
    by_cases hk : k0 = k
    · rw [if_pos hk]
      have hfk : (f == k0) = false := by
        simp only [beq_eq_false_iff_ne, ne_eq]
        exact fun e => hf (e.trans hk)
      simp only [List.lookup, hfk, ih]
    · rw [if_neg hk]
      cases hfk : (f == k0) with
      | true => simp only [List.lookup, hfk]
      | false => simp only [List.lookup, hfk, ih]

theorem lookup_setFeat_self (k : String) (v : Option ℚ) :
    ∀ fs : List (String × Option ℚ),
      (setFeat fs k v).lookup k = (fs.lookup k).map fun _ => v
  | [] => rfl
  | (k0, v0) :: fs => by
    have ih := lookup_setFeat_self k v fs
    have hsf : setFeat ((k0, v0) :: fs) k v =
        (if k0 = k then (k0, v) else (k0, v0)) :: setFeat fs k v := rfl
    rw [hsf]
    by_cases hk : k0 = k
    · rw [if_pos hk]
      have hkk : (k == k0) = true := by simp [hk.symm]
      simp only [List.lookup, hkk]
      rfl
    · rw [if_neg hk]
      have hkk : (k == k0) = false := by
        simp only [beq_eq_false_iff_ne, ne_eq]
        exact Ne.symm hk
      simp only [List.lookup, hkk, ih]

theorem lookup_some_of_mem_keys (k : String) :
    ∀ fs : List (String × Option ℚ), k ∈ fs.map Prod.fst →
      ∃ w, fs.lookup k = some w
  | [], h => by simp at h
  | (k0, v0) :: fs, h => by
    by_cases hk : k = k0
    · refine ⟨v0, ?_⟩
      have hkk : (k == k0) = true := by simp [hk]
      simp only [List.lookup, hkk]
    · have hm : k ∈ fs.map Prod.fst := by
        rcases (by simpa using h : k = k0 ∨ k ∈ fs.map Prod.fst) with h1 | h1
        · exact absurd h1 hk
        · exact h1
      obtain ⟨w, hw⟩ := lookup_some_of_mem_keys k fs hm
      refine ⟨w, ?_⟩
      have hkk : (k == k0) = false := by simpa using hk
      simp only [List.lookup, hkk, hw]

theorem lookup_none_of_not_mem_keys (k : String) :
    ∀ fs : List (String × Option ℚ), k ∉ fs.map Prod.fst → fs.lookup k = none
  | [], _ => rfl
  | (k0, v0) :: fs, h => by
    have h1 : (k == k0) = false := by
      simp only [beq_eq_false_iff_ne, ne_eq]
      exact fun e => h (by simp [e])
    have h2 : k ∉ fs.map Prod.fst := fun e => h (by simp [e])
    simp only [List.lookup, h1, lookup_none_of_not_mem_keys k fs h2]

theorem lookup_append_last_ne (k : String) (v : Option ℚ) (f : String) (hf : f ≠ k) :
    ∀ fs : List (String × Option ℚ), (fs ++ [(k, v)]).lookup f = fs.lookup f
  | [] => by
    have hfk : (f == k) = false := by simpa using hf
    simp only [List.nil_append, List.lookup, hfk]
  | (k0, v0) :: fs => by
    have ih := lookup_append_last_ne k v f hf fs
    rw [List.cons_append]
    cases hfk : (f == k0) with
    | true => simp only [List.lookup, hfk]
    | false => simp only [List.lookup, hfk, ih]

theorem lookup_append_last_self (k : String) (v : Option ℚ) :
    ∀ fs : List (String × Option ℚ), fs.lookup k = none →
      (fs ++ [(k, v)]).lookup k = some v
  | [], _ => by simp only [List.nil_append, List.lookup, beq_self_eq_true]
  | (k0, v0) :: fs, h => by
    rw [List.cons_append]
    cases hfk : (k == k0) with
    | true =>
      rw [List.lookup] at h
      simp only [hfk] at h
      exact absurd h (by simp)
    | false =>
      rw [List.lookup] at h
      simp only [hfk] at h
      simp only [List.lookup, hfk]
      exact lookup_append_last_self k v fs h

/-- C6: with a Commercial_Score column present, if the table has a column
whose name contains both a business and an AI keyword (case-insensitive),
only that column's cells for the three scoped countries that are missing
change, each set to the commercial-score value of the same row (same
(Country, Year)); every other cell — including that column's cells for all
other countries, even missing ones — is unchanged.  If no such column
exists, a new `Business_AI_Adoption` column is created as an exact row-wise
copy of `Commercial_Score`, with no country scoping.  Rows of a
dataframe-backed panel carry exactly the table's feature columns (`hwf`). -/
theorem C6_business_ai_imputation (p : PTable)
    (hc : "Commercial_Score" ∈ p.feats)
    (hwf : ∀ r ∈ p.rows, r.feats.map Prod.fst = p.feats) :
    (∀ b, findBusinessCol p.feats = some b →
      (impute_with_commercial_score p).feats = p.feats ∧
      List.Forall₂ (fun r r2 : PRow =>
        r2.country = r.country ∧ r2.year = r.year ∧
        (∀ f, f ≠ b → getFeat r2 f = getFeat r f) ∧
        getFeat r2 b =
          (if (IMPUTE_SCOPE.contains r.country && (getFeat r b == none)) = true
           then getFeat r "Commercial_Score" else getFeat r b))
        p.rows (impute_with_commercial_score p).rows) ∧
    (findBusinessCol p.feats = none →
      (impute_with_commercial_score p).feats = p.feats ++ ["Business_AI_Adoption"] ∧
      List.Forall₂ (fun r r2 : PRow =>
        r2.country = r.country ∧ r2.year = r.year ∧
        (∀ f, f ≠ "Business_AI_Adoption" → getFeat r2 f = getFeat r f) ∧
        getFeat r2 "Business_AI_Adoption" = getFeat r "Commercial_Score")
        p.rows (impute_with_commercial_score p).rows) := by
  have hcont : p.feats.contains "Commercial_Score" = true := by
    simpa using hc
  constructor
  · intro b hb
    unfold impute_with_commercial_score
    rw [if_neg (by simp [hc]), hb]
    refine ⟨rfl, ?_⟩
    show List.Forall₂ _ p.rows (p.rows.map _)
    rw [List.forall₂_map_right_iff, List.forall₂_same]
    intro r hr
    have hkeys : r.feats.map Prod.fst = p.feats := hwf r hr
    have hbmem : b ∈ p.feats := List.mem_of_find?_eq_some hb
    by_cases hcond : (IMPUTE_SCOPE.contains r.country && (getFeat r b == none)) = true
    · rw [if_pos hcond, if_pos hcond]
      refine ⟨rfl, rfl, ?_, ?_⟩
      · intro f hf
        show ((setFeat r.feats b _).lookup f).join = _
        rw [lookup_setFeat_ne b _ f hf r.feats]
        rfl
      · show ((setFeat r.feats b _).lookup b).join = _
        rw [lookup_setFeat_self b _ r.feats]
        obtain ⟨w, hw⟩ := lookup_some_of_mem_keys b r.feats (hkeys ▸ hbmem)
        rw [hw]
        rfl
    · rw [if_neg hcond, if_neg hcond]
      exact ⟨rfl, rfl, fun f _ => rfl, rfl⟩
  · intro hb
    unfold impute_with_commercial_score
    rw [if_neg (by simp [hc]), hb]
    refine ⟨rfl, ?_⟩
    show List.Forall₂ _ p.rows (p.rows.map _)
    rw [List.forall₂_map_right_iff, List.forall₂_same]
    intro r hr
    have hkeys : r.feats.map Prod.fst = p.feats := hwf r hr
    have hpred : (containsCI "Business_AI_Adoption" "business" &&
        containsCI "Business_AI_Adoption" "ai") = true := by decide
    have hnotmem : "Business_AI_Adoption" ∉ p.feats := by
      intro hmem
      exact (List.find?_eq_none.mp hb _ hmem) hpred
    have hnone : r.feats.lookup "Business_AI_Adoption" = none :=
      lookup_none_of_not_mem_keys _ r.feats (by rw [hkeys]; exact hnotmem)
    refine ⟨rfl, rfl, ?_, ?_⟩
    · intro f hf
      show ((r.feats ++ [("Business_AI_Adoption", _)]).lookup f).join = _
      rw [lookup_append_last_ne _ _ f hf r.feats]
      rfl
    · show ((r.feats ++ [("Business_AI_Adoption", _)]).lookup "Business_AI_Adoption").join = _
      rw [lookup_append_last_self _ _ r.feats hnone]
      rfl

theorem C6_witness :
    (impute_with_commercial_score exPanelImpute).feats = exPanelImpute.feats :=
  ((C6_business_ai_imputation exPanelImpute (by decide) (by decide)).1
    "Business_AI_Adoption_pct" (by decide)).1

theorem filter_key_of_nodup (k : String × Int) :
    ∀ t2 : List PRow, (t2.map rowKey).Nodup →
      (t2.filter fun r2 => rowKey r2 == k) = [] ∨
      ∃ m, (t2.filter fun r2 => rowKey r2 == k) = [m] ∧ rowKey m = k
  | [], _ => Or.inl rfl
  | r :: t2, h => by
    rw [List.map_cons, List.nodup_cons] at h
    rw [List.filter_cons]
    cases hk : (rowKey r == k) with
    | false =>
      simp only [Bool.false_eq_true, if_false]
      exact filter_key_of_nodup k t2 h.2
    | true =>
      right
      have hkk : rowKey r = k := by simpa using hk
      have hnil : (t2.filter fun r2 => rowKey r2 == k) = [] := by
        rw [List.filter_eq_nil_iff]
        intro a ha hc
        exact h.1 (by
          have h3 : rowKey a = k := by simpa using hc
          rw [hkk, ← h3]
          exact List.mem_map_of_mem rowKey ha)
      refine ⟨r, ?_, hkk⟩
      simp [hnil]

theorem outerJoin_part1_keys (t1 t2 : List PRow) (h2 : (t2.map rowKey).Nodup) :
    ((t1.flatMap fun r1 =>
      let ms := t2.filter fun r2 => rowKey r2 == rowKey r1
      if ms.isEmpty then [r1]
      else ms.map fun r2 => PRow.mk r1.country r1.year (r1.feats ++ r2.feats)).map rowKey)
    = t1.map rowKey := by
  induction t1 with
  | nil => rfl
  | cons r1 t1 ih =>
    rw [List.flatMap_cons, List.map_append, ih, List.map_cons]
    rcases filter_key_of_nodup (rowKey r1) t2 h2 with hnil | ⟨m, hm, _⟩
    · simp [hnil]
    · simp [hm]
      rfl

theorem outerJoin_keys_nodup (t1 t2 : List PRow) (h1 : (t1.map rowKey).Nodup)
    (h2 : (t2.map rowKey).Nodup) : ((outerJoin t1 t2).map rowKey).Nodup := by
  unfold outerJoin
  rw [List.map_append, List.nodup_append]
  refine ⟨?_, ?_, ?_⟩
  · rw [outerJoin_part1_keys t1 t2 h2]
    exact h1
  · exact List.Nodup.sublist (List.Sublist.map rowKey (List.filter_sublist t2)) h2
  · intro a ha hb
    rw [outerJoin_part1_keys t1 t2 h2] at ha
    obtain ⟨r2, hr2, rfl⟩ := List.mem_map.mp hb
    have hr2f := List.of_mem_filter hr2
    have : (t1.filter fun r1 => rowKey r1 == rowKey r2) = [] := by
      cases he : (t1.filter fun r1 => rowKey r1 == rowKey r2) with
      | nil => rfl
      | cons x xs => rw [he] at hr2f; simp at hr2f
    rw [List.filter_eq_nil_iff] at this
    obtain ⟨r1, hr1, hkey⟩ := List.mem_map.mp ha
    exact this r1 hr1 (by simp [hkey])

theorem foldl_mergeStep_nodup : ∀ (tables : List PTable) (acc : Option PTable),
    (∀ t ∈ tables, (t.rows.map rowKey).Nodup) →
    (∀ m0, acc = some m0 → (m0.rows.map rowKey).Nodup) →
    ∀ m, tables.foldl mergeStep acc = some m → (m.rows.map rowKey).Nodup
  | [], _, _, hacc, m, hm => hacc m hm
  | t :: ts, acc, h, hacc, m, hm => by
    refine foldl_mergeStep_nodup ts (mergeStep acc t)
      (fun t2 h2 => h t2 (List.mem_cons_of_mem _ h2)) ?_ m hm
    intro m0 hm0
    unfold mergeStep at hm0
    by_cases he : t.rows.isEmpty
    · rw [if_pos he] at hm0
      exact hacc m0 hm0
    · rw [if_neg he] at hm0
      cases hc : acc with
      | none =>
        rw [hc] at hm0
        obtain rfl := Option.some.inj hm0
        exact h t (List.mem_cons_self _ _)
      | some mm =>
        rw [hc] at hm0
        obtain rfl := Option.some.inj hm0
        exact outerJoin_keys_nodup mm.rows t.rows (hacc mm hc)
          (h t (List.mem_cons_self _ _))

theorem merge_all_data_keys_nodup (tables : List PTable)
    (h : ∀ t ∈ tables, (t.rows.map rowKey).Nodup) :
    ((merge_all_data tables).rows.map rowKey).Nodup := by
  unfold merge_all_data
  cases hm : mergeFold tables with
  | none => simp
  | some m =>
    by_cases he : m.rows.isEmpty
    · simp [he]
    · simp only [he, Bool.false_eq_true, if_false]
      have hnd : (m.rows.map rowKey).Nodup :=
        foldl_mergeStep_nodup tables none h (by intro m0 hm0; cases hm0) m hm
      have hperm : (sortRows m.rows).Perm m.rows :=
        List.perm_insertionSort _ m.rows
      exact (List.Perm.nodup_iff (List.Perm.map rowKey hperm)).mpr hnd

theorem find?_eq_head?_filter {α : Type} (p : α → Bool) :
    ∀ l : List α, l.find? p = (l.filter p).head?
  | [] => rfl
  | a :: l => by
    rw [List.find?, List.filter_cons]
    cases hp : p a with
    | true => simp
    | false =>
      simp only [Bool.false_eq_true, if_false]
      exact find?_eq_head?_filter p l

theorem filter_year_of_nodup (y : Int) :
    ∀ rs : List PRow, ((rs.map fun r => r.year).Nodup) →
      (rs.filter fun r => r.year == y) = [] ∨
      ∃ m, (rs.filter fun r => r.year == y) = [m] ∧ m.year = y
  | [], _ => Or.inl rfl
  | r :: rs, h => by
    rw [List.map_cons, List.nodup_cons] at h
    rw [List.filter_cons]
    cases hk : (r.year == y) with
    | false => simp only [Bool.false_eq_true, if_false]; exact filter_year_of_nodup y rs h.2
    | true =>
      right
      have hkk : r.year = y := by simpa using hk
      have hnil : (rs.filter fun r2 => r2.year == y) = [] := by
        rw [List.filter_eq_nil_iff]
        intro a ha hc
        exact h.1 (by
          have h3 : a.year = y := by simpa using hc
          rw [hkk, ← h3]
          exact List.mem_map_of_mem _ ha)
      exact ⟨r, by simp [hnil], hkk⟩

theorem joined_eq_map (c : String) (rs : List PRow)
    (h : (rs.map fun r => r.year).Nodup) :
    ∀ ys : List Int,
      (ys.flatMap fun y =>
        match rs.filter fun r => r.year == y with
        | [] => [PRow.mk c y []]
        | ms => ms.map fun r => PRow.mk c y r.feats) =
      ys.map fun y =>
        match rs.find? fun r => r.year == y with
        | some r => PRow.mk c y r.feats
        | none => PRow.mk c y []
  | [] => rfl
  | y :: ys => by
    rw [List.flatMap_cons, List.map_cons, joined_eq_map c rs h ys]
    rcases filter_year_of_nodup y rs h with hnil | ⟨m, hm, _⟩
    · rw [hnil, find?_eq_head?_filter, hnil]
      rfl
    · rw [hm, find?_eq_head?_filter, hm]
      rfl

theorem countryBlock_country (feats : List String) (c : String) (rs : List PRow) :
    ∀ r ∈ countryBlock feats c rs, r.country = c := by
  intro r hr
  unfold countryBlock at hr
  obtain ⟨p, _, rfl⟩ := List.mem_map.mp hr
  rfl

theorem countryBlock_keys (feats : List String) (c : String) (rs : List PRow)
    (h : (rs.map fun r => r.year).Nodup) :
    (countryBlock feats c rs).map rowKey =
      (yearRange (minYearOf rs) (maxYearOf rs)).map fun y => (c, y) := by
  unfold countryBlock
  rw [List.map_map]
  have henum : ∀ {α β : Type} (f : α → β) (l : List α),
      l.enum.map (fun p => f p.2) = l.map f := by
    intro α β f l
    rw [show (fun p : Nat × α => f p.2) = f ∘ Prod.snd from rfl, ← List.map_map,
      List.enum_map_snd]
  have h1 : ∀ l : List PRow,
      l.enum.map (rowKey ∘ fun p => PRow.mk c p.2.year
        ((feats.map fun f => (f, interpSeries (l.map fun r => getFeat r f))).map
          fun fs => (fs.1, fs.2.getD p.1 none))) =
      l.map fun r => (c, r.year) := by
    intro l
    have h2 : ∀ ps : List (Nat × PRow),
        ps.map (rowKey ∘ fun p => PRow.mk c p.2.year
          ((feats.map fun f => (f, interpSeries (l.map fun r => getFeat r f))).map
            fun fs => (fs.1, fs.2.getD p.1 none))) =
        ps.map fun p => (c, p.2.year) := by
      intro ps
      induction ps with
      | nil => rfl
      | cons q ps ih => rw [List.map_cons, List.map_cons, ih]; rfl
    rw [h2, henum (fun r : PRow => (c, r.year)) l]
  rw [h1, joined_eq_map c rs h, List.map_map]
  apply List.map_congr_left
  intro y _
  simp only [Function.comp_apply]
  cases hf : rs.find? fun r => r.year == y with
  | none => rfl
  | some r => rfl

theorem yearRange_nodup (a b : Int) : (yearRange a b).Nodup := by
  unfold yearRange
  apply List.Nodup.map_on ?_ (List.nodup_range _)
  intro x _ y _ hxy
  omega

theorem filter_country_years_nodup (p : PTable) (c : String)
    (h : (p.rows.map rowKey).Nodup) :
    ((p.rows.filter fun r => r.country == c).map fun r => r.year).Nodup := by
  have hsub : ((p.rows.filter fun r => r.country == c).map rowKey).Nodup :=
    List.Nodup.sublist (List.Sublist.map rowKey (List.filter_sublist _)) h
  have hcc : ∀ r ∈ p.rows.filter fun r => r.country == c, r.country = c := by
    intro r hr
    simpa using List.of_mem_filter hr
  have heq : ((p.rows.filter fun r => r.country == c).map fun r => r.year) =
      ((p.rows.filter fun r => r.country == c).map rowKey).map Prod.snd := by
    rw [List.map_map]
    rfl
  rw [heq]
  apply List.Nodup.map_on ?_ hsub
  intro x hx y hy hxy
  obtain ⟨rx, hrx, rfl⟩ := List.mem_map.mp hx
  obtain ⟨ry, hry, rfl⟩ := List.mem_map.mp hy
  have h1 : rx.country = c := hcc rx hrx
  have h2 : ry.country = c := hcc ry hry
  have hyy : rx.year = ry.year := hxy
  show (rx.country, rx.year) = (ry.country, ry.year)
  rw [h1, h2, hyy]

theorem interpolate_keys_nodup (p : PTable) (h : (p.rows.map rowKey).Nodup) :
    ((interpolate_missing_years p).rows.map rowKey).Nodup := by
  unfold interpolate_missing_years
  by_cases hb : (TARGET_COUNTRIES.filterMap fun c =>
      let rs := p.rows.filter fun r => r.country == c
      if rs.isEmpty then none else some (countryBlock p.feats c rs)).isEmpty
  · rw [if_pos hb]
    exact h
  · rw [if_neg hb]
    show ((List.flatten _).map rowKey).Nodup
    rw [List.map_flatten, List.nodup_flatten]
    constructor
    · intro l hl
      rw [List.map_filterMap] at hl
      obtain ⟨c, hc, hFc⟩ := List.mem_filterMap.mp hl
      by_cases he : (p.rows.filter fun r => r.country == c).isEmpty
      · simp [he] at hFc
      · simp only [he, Bool.false_eq_true, if_false] at hFc
        have hFc2 : (countryBlock p.feats c
            (p.rows.filter fun r => r.country == c)).map rowKey = l := by
          simpa using hFc
        obtain rfl := hFc2
        rw [countryBlock_keys p.feats c _ (filter_country_years_nodup p c h)]
        apply List.Nodup.map_on ?_ (yearRange_nodup _ _)
        intro x _ y _ hxy
        exact (Prod.ext_iff.mp hxy).2
    · rw [List.map_filterMap]
      have htarget : List.Pairwise (fun a b => a ≠ b) TARGET_COUNTRIES := by
        have : TARGET_COUNTRIES.Nodup := by decide
        exact this
      apply List.Pairwise.filterMap _ ?_ htarget
      intro c1 c2 hne l1 hl1 l2 hl2
      by_cases he1 : (p.rows.filter fun r => r.country == c1).isEmpty
      · simp [he1] at hl1
      by_cases he2 : (p.rows.filter fun r => r.country == c2).isEmpty
      · simp [he2] at hl2
      simp only [he1, he2, Bool.false_eq_true, if_false, Option.mem_def] at hl1 hl2
      have hl1b : (countryBlock p.feats c1
          (p.rows.filter fun r => r.country == c1)).map rowKey = l1 := by
        simpa using hl1
      have hl2b : (countryBlock p.feats c2
          (p.rows.filter fun r => r.country == c2)).map rowKey = l2 := by
        simpa using hl2
      obtain rfl := hl1b
      obtain rfl := hl2b
      intro k hk1 hk2
      obtain ⟨r1, hr1, rfl⟩ := List.mem_map.mp hk1
      obtain ⟨r2, hr2, hkey⟩ := List.mem_map.mp hk2
      have hc1 : r1.country = c1 := countryBlock_country p.feats c1 _ r1 hr1
      have hc2 : r2.country = c2 := countryBlock_country p.feats c2 _ r2 hr2
      have : r1.country = r2.country := congrArg Prod.fst hkey.symm
      exact hne (by rw [← hc1, this, hc2])

theorem impute_keys_eq (p : PTable) :
    (impute_with_commercial_score p).rows.map rowKey = p.rows.map rowKey := by
  unfold impute_with_commercial_score
  by_cases h1 : p.feats.contains "Commercial_Score" = true
  · have h1m : "Commercial_Score" ∈ p.feats := by simpa using h1
    rw [if_neg (by simp [h1m])]
    cases hf : findBusinessCol p.feats with
    | some b =>
      show (p.rows.map _).map rowKey = _
      rw [List.map_map]
      apply List.map_congr_left
      intro r _
      by_cases hc : (IMPUTE_SCOPE.contains r.country && (getFeat r b == none)) = true
      · simp only [Function.comp_apply, if_pos hc]
        rfl
      · simp only [Function.comp_apply, if_neg hc]
    | none =>
      show (p.rows.map _).map rowKey = _
      rw [List.map_map]
      apply List.map_congr_left
      intro r _
      rfl
  · rw [if_pos (by simpa using h1)]

/-- C3, counterexample: the (Country, Year) pair is not unique for every
sequence of adapter inputs — an electricity source carrying two alias
spellings of the same country for one year makes the merged panel carry the
key ("United States", 2020) twice. -/
theorem C3_counterexample :
    (merge_all_data [process_oecd_msti none, process_ember_electricity (some exEmberDup),
      process_oecd_broadband none, process_top500_compute none,
      process_stanford_ai_index none, process_tortoise_index none]).rows.map rowKey =
      [("United States", 2020), ("United States", 2020)] := by
  decide

/-- C3, amended: provided every adapter output table has unique (Country,
Year) keys, the Merge Engine's panel has unique (Country, Year) keys; the
Interpolator preserves key uniqueness, and the Imputer leaves the key list
unchanged. -/
theorem C3_key_uniqueness (tables : List PTable)
    (h : ∀ t ∈ tables, (t.rows.map rowKey).Nodup) :
    ((merge_all_data tables).rows.map rowKey).Nodup ∧
    (∀ p : PTable, (p.rows.map rowKey).Nodup →
      ((interpolate_missing_years p).rows.map rowKey).Nodup) ∧
    (∀ p : PTable, (impute_with_commercial_score p).rows.map rowKey = p.rows.map rowKey) :=
  ⟨merge_all_data_keys_nodup tables h, interpolate_keys_nodup, impute_keys_eq⟩

theorem C3_witness :
    ((merge_all_data [exMergeA, exMergeB]).rows.map rowKey).Nodup :=
  (C3_key_uniqueness [exMergeA, exMergeB] (by decide)).1

theorem knownPoints_ge : ∀ (s : Nat) (v : List (Option ℚ)), ∀ p ∈ knownPoints s v, s ≤ p.1
  | _, [], _, hp => by simp [knownPoints] at hp
  | s, none :: v, p, hp => by
    have := knownPoints_ge (s + 1) v p (by simpa [knownPoints] using hp)
    omega
  | s, some x :: v, p, hp => by
    rw [knownPoints] at hp
    rcases List.mem_cons.mp hp with rfl | hp2
    · exact le_refl s
    · have := knownPoints_ge (s + 1) v p hp2
      omega

theorem knownPoints_sorted : ∀ (s : Nat) (v : List (Option ℚ)),
    (knownPoints s v).Pairwise fun p q => p.1 < q.1
  | _, [] => List.Pairwise.nil
  | s, none :: v => by
    rw [knownPoints]
    exact knownPoints_sorted (s + 1) v
  | s, some x :: v => by
    rw [knownPoints]
    refine List.Pairwise.cons ?_ (knownPoints_sorted (s + 1) v)
    intro q hq
    have := knownPoints_ge (s + 1) v q hq
    omega

theorem knownPoints_mem_iff : ∀ (s : Nat) (v : List (Option ℚ)) (j : Nat) (x : ℚ),
    (j, x) ∈ knownPoints s v ↔
      ∃ i : Nat, i < v.length ∧ j = s + i ∧ v.getD i none = some x
  | _, [], j, x => by simp [knownPoints]
  | s, none :: v, j, x => by
    rw [knownPoints, knownPoints_mem_iff (s + 1) v j x]
    constructor
    · rintro ⟨i, hi, rfl, hv⟩
      exact ⟨i + 1, by simpa using hi, by omega, by simpa using hv⟩
    · rintro ⟨i, hi, rfl, hv⟩
      match i, hv with
      | 0, hv => simp at hv
      | i + 1, hv =>
        exact ⟨i, by simpa using hi, by omega, by simpa using hv⟩
  | s, some y :: v, j, x => by
    rw [knownPoints]
    constructor
    · intro hp
      rcases List.mem_cons.mp hp with heq | hp2
      · obtain ⟨rfl, rfl⟩ := Prod.mk.injEq .. ▸ And.intro (congrArg Prod.fst heq) (congrArg Prod.snd heq)
        exact ⟨0, by simp, by omega, by simp⟩
      · obtain ⟨i, hi, rfl, hv⟩ := (knownPoints_mem_iff (s + 1) v j x).mp hp2
        exact ⟨i + 1, by simpa using hi, by omega, by simpa using hv⟩
    · rintro ⟨i, hi, rfl, hv⟩
      match i, hv with
      | 0, hv =>
        have : y = x := by simpa using hv
        subst this
        exact List.mem_cons_self _ _
      | i + 1, hv =>
        refine List.mem_cons_of_mem _ ?_
        rw [knownPoints_mem_iff (s + 1) v]
        exact ⟨i, by simpa using hi, by omega, by simpa using hv⟩

theorem knownPoints_nil_of_all_none : ∀ (s : Nat) (v : List (Option ℚ)),
    (∀ o ∈ v, o = none) → knownPoints s v = []
  | _, [], _ => rfl
  | s, none :: v, h => by
    rw [knownPoints]
    exact knownPoints_nil_of_all_none (s + 1) v fun o ho => h o (List.mem_cons_of_mem _ ho)
  | s, some x :: v, h => by
    exact absurd (h (some x) (List.mem_cons_self _ _)) (by simp)

theorem interpAt_of_lt_all (K : List (Nat × ℚ)) (i j : Nat) (x : ℚ)
    (hhead : K.head? = some (j, x)) (hall : ∀ p ∈ K, i < p.1) :
    interpAt K i = some x := by
  unfold interpAt
  have h1 : (K.filter fun p => p.1 ≤ i) = [] := by
    rw [List.filter_eq_nil_iff]
    intro p hp hc
    have h2 : p.1 ≤ i := by simpa using hc
    exact absurd h2 (by have := hall p hp; omega)
  have h2 : (K.filter fun p => i ≤ p.1) = K := by
    rw [List.filter_eq_self]
    intro p hp
    simpa using le_of_lt (hall p hp)
  rw [h1, h2, hhead]
  rfl

theorem interpAt_of_all_lt (K : List (Nat × ℚ)) (i j : Nat) (x : ℚ)
    (hlast : K.getLast? = some (j, x)) (hall : ∀ p ∈ K, p.1 < i) :
    interpAt K i = some x := by
  unfold interpAt
  have h1 : (K.filter fun p => p.1 ≤ i) = K := by
    rw [List.filter_eq_self]
    intro p hp
    simpa using le_of_lt (hall p hp)
  have h2 : (K.filter fun p => i ≤ p.1) = [] := by
    rw [List.filter_eq_nil_iff]
    intro p hp hc
    have h3 : i ≤ p.1 := by simpa using hc
    exact absurd h3 (by have := hall p hp; omega)
  rw [h1, h2, hlast]
  rfl

theorem interpAt_known (K : List (Nat × ℚ)) (hs : K.Pairwise fun p q => p.1 < q.1)
    (i : Nat) (x : ℚ) (hmem : (i, x) ∈ K) : interpAt K i = some x := by
  obtain ⟨A, B, rfl⟩ := List.append_of_mem hmem
  rw [List.pairwise_append] at hs
  have hA : ∀ p ∈ A, p.1 < i := fun p hp => hs.2.2 p hp _ (List.mem_cons_self _ _)
  have hB : ∀ p ∈ B, i < p.1 := fun p hp => (List.pairwise_cons.mp hs.2.1).1 p hp
  unfold interpAt
  have h1 : ((A ++ (i, x) :: B).filter fun p => p.1 ≤ i) = A ++ [(i, x)] := by
    rw [List.filter_append, List.filter_cons]
    have hAx : (A.filter fun p => p.1 ≤ i) = A := by
      rw [List.filter_eq_self]
      intro p hp
      simpa using le_of_lt (hA p hp)
    have hBx : (B.filter fun p => p.1 ≤ i) = [] := by
      rw [List.filter_eq_nil_iff]
      intro p hp hc
      exact absurd (by simpa using hc : p.1 ≤ i) (by have := hB p hp; omega)
    simp [hAx, hBx]
  have h2 : ((A ++ (i, x) :: B).filter fun p => i ≤ p.1) = (i, x) :: B.filter fun p => i ≤ p.1 := by
    rw [List.filter_append, List.filter_cons]
    have hAx : (A.filter fun p => i ≤ p.1) = [] := by
      rw [List.filter_eq_nil_iff]
      intro p hp hc
      exact absurd (by simpa using hc : i ≤ p.1) (by have := hA p hp; omega)
    simp [hAx]
  rw [h1, h2, List.getLast?_concat]
  simp

theorem interpAt_mid (A B : List (Nat × ℚ)) (j1 j2 i : Nat) (x1 x2 : ℚ)
    (hs : (A ++ (j1, x1) :: (j2, x2) :: B).Pairwise fun p q => p.1 < q.1)
    (h1 : j1 < i) (h2 : i < j2) :
    interpAt (A ++ (j1, x1) :: (j2, x2) :: B) i =
      some (x1 + (x2 - x1) * ((i : ℚ) - (j1 : ℚ)) / ((j2 : ℚ) - (j1 : ℚ))) := by
  rw [List.pairwise_append] at hs
  have hA : ∀ p ∈ A, p.1 < j1 := fun p hp => hs.2.2 p hp _ (List.mem_cons_self _ _)
  have hB : ∀ p ∈ B, j2 < p.1 := fun p hp =>
    (List.pairwise_cons.mp (List.pairwise_cons.mp hs.2.1).2).1 p hp
  unfold interpAt
  have hf1 : ((A ++ (j1, x1) :: (j2, x2) :: B).filter fun p => p.1 ≤ i) = A ++ [(j1, x1)] := by
    rw [List.filter_append, List.filter_cons, List.filter_cons]
    have hAx : (A.filter fun p => p.1 ≤ i) = A := by
      rw [List.filter_eq_self]
      intro p hp
      have := hA p hp
      simpa using by omega
    have hBx : (B.filter fun p => p.1 ≤ i) = [] := by
      rw [List.filter_eq_nil_iff]
      intro p hp hc
      exact absurd (by simpa using hc : p.1 ≤ i) (by have := hB p hp; omega)
    have hc1 : (decide (j1 ≤ i)) = true := by simpa using le_of_lt h1
    have hc2 : (decide (j2 ≤ i)) = false := by simpa using by omega
    simp [hAx, hBx, hc1, hc2]
  have hf2 : ((A ++ (j1, x1) :: (j2, x2) :: B).filter fun p => i ≤ p.1) =
      (j2, x2) :: B.filter fun p => i ≤ p.1 := by
    rw [List.filter_append, List.filter_cons, List.filter_cons]
    have hAx : (A.filter fun p => i ≤ p.1) = [] := by
      rw [List.filter_eq_nil_iff]
      intro p hp hc
      exact absurd (by simpa using hc : i ≤ p.1) (by have := hA p hp; omega)
    have hc1 : (decide (i ≤ j1)) = false := by simpa using by omega
    have hc2 : (decide (i ≤ j2)) = true := by simpa using le_of_lt h2
    simp [hAx, hc1, hc2]
  rw [hf1, hf2, List.getLast?_concat]
  have hne : j2 ≠ j1 := by omega
  simp [hne]

theorem adjacent_decomp (K : List (Nat × ℚ)) (hs : K.Pairwise fun p q => p.1 < q.1)
    (j1 j2 : Nat) (x1 x2 : ℚ) (h1 : (j1, x1) ∈ K) (h2 : (j2, x2) ∈ K) (hlt : j1 < j2)
    (hno : ∀ p ∈ K, ¬(j1 < p.1 ∧ p.1 < j2)) :
    ∃ A B, K = A ++ (j1, x1) :: (j2, x2) :: B := by
  obtain ⟨A, C, rfl⟩ := List.append_of_mem h1
  rw [List.pairwise_append] at hs
  have hA : ∀ p ∈ A, p.1 < j1 := fun p hp => hs.2.2 p hp _ (List.mem_cons_self _ _)
  have hC : ∀ p ∈ C, j1 < p.1 := fun p hp => (List.pairwise_cons.mp hs.2.1).1 p hp
  have h2C : (j2, x2) ∈ C := by
    rcases List.mem_append.mp h2 with hA2 | hc2
    · exact absurd (hA _ hA2) (by omega)
    · rcases List.mem_cons.mp hc2 with heq | hc3
      · exact absurd (congrArg Prod.fst heq) (by simp; omega)
      · exact hc3
  obtain ⟨D, B, rfl⟩ := List.append_of_mem h2C
  have hCp : (D ++ (j2, x2) :: B).Pairwise fun p q => p.1 < q.1 :=
    (List.pairwise_cons.mp hs.2.1).2
  rw [List.pairwise_append] at hCp
  have hD : D = [] := by
    cases hd : D with
    | nil => rfl
    | cons d ds =>
      have hd1 : d ∈ D := by rw [hd]; exact List.mem_cons_self _ _
      have hgt : j1 < d.1 := hC d (List.mem_append.mpr (Or.inl hd1))
      have hlt2 : d.1 < j2 := hCp.2.2 d hd1 _ (List.mem_cons_self _ _)
      exact absurd (hno d (by
        refine List.mem_append.mpr (Or.inr ?_)
        exact List.mem_cons_of_mem _ (List.mem_append.mpr (Or.inl hd1)))) (by simp [hgt, hlt2])
  subst hD
  exact ⟨A, B, by simp⟩

theorem foldl_min_le_init : ∀ (ys : List Int) (y0 : Int), ys.foldl min y0 ≤ y0
  | [], _ => le_refl _
  | y :: ys, y0 => le_trans (foldl_min_le_init ys (min y0 y)) (min_le_left _ _)

theorem foldl_min_le_mem : ∀ (ys : List Int) (y0 : Int), ∀ y ∈ ys, ys.foldl min y0 ≤ y
  | [], _, _, h => absurd h (List.not_mem_nil _)
  | z :: ys, y0, y, h => by
    rcases List.mem_cons.mp h with rfl | h2
    · exact le_trans (foldl_min_le_init ys (min y0 y)) (min_le_right _ _)
    · exact foldl_min_le_mem ys (min y0 z) y h2

theorem init_le_foldl_max : ∀ (ys : List Int) (y0 : Int), y0 ≤ ys.foldl max y0
  | [], _ => le_refl _
  | y :: ys, y0 => le_trans (le_max_left _ _) (init_le_foldl_max ys (max y0 y))

theorem mem_le_foldl_max : ∀ (ys : List Int) (y0 : Int), ∀ y ∈ ys, y ≤ ys.foldl max y0
  | [], _, _, h => absurd h (List.not_mem_nil _)
  | z :: ys, y0, y, h => by
    rcases List.mem_cons.mp h with rfl | h2
    · exact le_trans (le_max_right _ _) (init_le_foldl_max ys (max y0 y))
    · exact mem_le_foldl_max ys (max y0 z) y h2

theorem minYearOf_le {rs : List PRow} {r : PRow} (hr : r ∈ rs) : minYearOf rs ≤ r.year := by
  unfold minYearOf
  cases hm : rs.map fun r => r.year with
  | nil => simp [List.map_eq_nil_iff] at hm; subst hm; simp at hr
  | cons y ys =>
    have hmem : r.year ∈ y :: ys := hm ▸ List.mem_map_of_mem _ hr
    rcases List.mem_cons.mp hmem with he | h2
    · exact le_trans (foldl_min_le_init ys y) (le_of_eq he.symm)
    · exact foldl_min_le_mem ys y _ h2

theorem le_maxYearOf {rs : List PRow} {r : PRow} (hr : r ∈ rs) : r.year ≤ maxYearOf rs := by
  unfold maxYearOf
  cases hm : rs.map fun r => r.year with
  | nil => simp [List.map_eq_nil_iff] at hm; subst hm; simp at hr
  | cons y ys =>
    have hmem : r.year ∈ y :: ys := hm ▸ List.mem_map_of_mem _ hr
    rcases List.mem_cons.mp hmem with he | h2
    · exact le_trans (le_of_eq he) (init_le_foldl_max ys y)
    · exact mem_le_foldl_max ys y _ h2

theorem yearRange_length (a b : Int) : (yearRange a b).length = (b - a).toNat + 1 := by
  unfold yearRange
  rw [List.length_map, List.length_range]

theorem yearRange_getElem (a b : Int) (i : Nat) (hi : i < (b - a).toNat + 1) :
    (yearRange a b)[i]? = some (a + (i : Int)) := by
  unfold yearRange
  rw [List.getElem?_map]
  rw [List.getElem?_range hi]
  rfl

theorem mem_yearRange {a b y : Int} (hab : a ≤ b) :
    y ∈ yearRange a b ↔ a ≤ y ∧ y ≤ b := by
  unfold yearRange
  constructor
  · intro hy
    obtain ⟨i, hi, rfl⟩ := List.mem_map.mp hy
    rw [List.mem_range] at hi
    omega
  · intro ⟨h1, h2⟩
    refine List.mem_map.mpr ⟨(y - a).toNat, ?_, by omega⟩
    rw [List.mem_range]
    omega

theorem find?_year_of_mem {rs : List PRow} (h : (rs.map fun r => r.year).Nodup)
    {r : PRow} (hr : r ∈ rs) : (rs.find? fun r2 => r2.year == r.year) = some r := by
  rcases filter_year_of_nodup r.year rs h with hnil | ⟨m, hm, hmy⟩
  · rw [List.filter_eq_nil_iff] at hnil
    exact absurd (by simp : (r.year == r.year) = true) (hnil r hr)
  · rw [find?_eq_head?_filter, hm]
    have hrm : r ∈ rs.filter fun r2 => r2.year == r.year :=
      List.mem_filter.mpr ⟨hr, by simp⟩
    rw [hm] at hrm
    obtain rfl : r = m := List.mem_singleton.mp hrm
    rfl

theorem head?_eq_of_min (K : List (Nat × ℚ)) (hs : K.Pairwise fun p q => p.1 < q.1)
    (j : Nat) (x : ℚ) (hmem : (j, x) ∈ K) (hmin : ∀ p ∈ K, j ≤ p.1) :
    K.head? = some (j, x) := by
  obtain ⟨A, B, rfl⟩ := List.append_of_mem hmem
  rw [List.pairwise_append] at hs
  have hA : A = [] := by
    cases ha : A with
    | nil => rfl
    | cons a as =>
      have ha1 : a ∈ A := by rw [ha]; exact List.mem_cons_self _ _
      have h1 : a.1 < j := hs.2.2 a ha1 _ (List.mem_cons_self _ _)
      have h2 : j ≤ a.1 := hmin a (List.mem_append.mpr (Or.inl ha1))
      exact absurd h1 (not_lt.mpr h2)
  subst hA
  rfl

theorem getLast?_eq_of_max (K : List (Nat × ℚ)) (hs : K.Pairwise fun p q => p.1 < q.1)
    (j : Nat) (x : ℚ) (hmem : (j, x) ∈ K) (hmax : ∀ p ∈ K, p.1 ≤ j) :
    K.getLast? = some (j, x) := by
  obtain ⟨A, B, rfl⟩ := List.append_of_mem hmem
  rw [List.pairwise_append] at hs
  have hB : B = [] := by
    cases hb : B with
    | nil => rfl
    | cons b bs =>
      have hb1 : b ∈ B := by rw [hb]; exact List.mem_cons_self _ _
      have h1 : j < b.1 := (List.pairwise_cons.mp hs.2.1).1 b hb1
      have h2 : b.1 ≤ j := hmax b (List.mem_append.mpr
        (Or.inr (List.mem_cons_of_mem _ hb1)))
      exact absurd h1 (not_lt.mpr h2)
  subst hB
  exact List.getLast?_concat A

theorem lookup_graph (g : String → Option ℚ) :
    ∀ (fs : List String) (f : String),
      (fs.map fun x => (x, g x)).lookup f = if f ∈ fs then some (g f) else none
  | [], f => by simp [List.lookup]
  | x :: fs, f => by
    rw [List.map_cons]
    cases hfx : (f == x) with
    | true =>
      have hf : f = x := by simpa using hfx
      subst hf
      simp only [List.lookup, hfx]
      rw [if_pos (List.mem_cons_self _ _)]
    | false =>
      have hf : ¬f = x := by simpa using hfx
      simp only [List.lookup, hfx]
      rw [lookup_graph g fs f]
      by_cases hm : f ∈ fs
      · rw [if_pos hm, if_pos (List.mem_cons_of_mem _ hm)]
      · rw [if_neg hm, if_neg (fun hc => by
          rcases List.mem_cons.mp hc with h1 | h2
          · exact hf h1
          · exact hm h2)]

theorem getFeat_some_mem_keys {r : PRow} {f : String} {x : ℚ}
    (h : getFeat r f = some x) : f ∈ r.feats.map Prod.fst := by
  by_contra hn
  rw [getFeat, lookup_none_of_not_mem_keys f r.feats hn] at h
  exact Option.noConfusion h

theorem getFeat_jrow (rs : List PRow) (c f : String) (y : Int) :
    getFeat (match rs.find? fun r => r.year == y with
      | some r => PRow.mk c y r.feats
      | none => PRow.mk c y []) f = origFeat rs f y := by
  unfold origFeat
  cases rs.find? fun r => r.year == y with
  | none => rfl
  | some r => rfl

theorem jrow_year (rs : List PRow) (c : String) (y : Int) :
    (match rs.find? fun r : PRow => r.year == y with
      | some r => PRow.mk c y r.feats
      | none => PRow.mk c y []).year = y := by
  cases rs.find? fun r => r.year == y with
  | none => rfl
  | some r => rfl

theorem block_body_spec (feats : List String) (c : String) (l : List PRow) (rOut : PRow)
    (hr : rOut ∈ l.enum.map fun p =>
      PRow.mk c p.2.year
        ((feats.map fun f => (f, interpSeries (l.map fun r => getFeat r f))).map
          fun fs => (fs.1, fs.2.getD p.1 none))) :
    ∃ i : Nat, i < l.length ∧ l[i]?.map (fun r => r.year) = some rOut.year ∧
      ∀ f : String, getFeat rOut f =
        if f ∈ feats then interpAt (knownPoints 0 (l.map fun r => getFeat r f)) i
        else none := by
  obtain ⟨q, hq, rfl⟩ := List.mem_map.mp hr
  rw [List.mem_enum_iff_getElem?] at hq
  have hlen : q.1 < l.length := by
    by_contra hn
    rw [List.getElem?_eq_none (le_of_not_lt hn)] at hq
    exact Option.noConfusion hq
  refine ⟨q.1, hlen, by rw [hq]; rfl, ?_⟩
  intro f
  show (((feats.map fun f => (f, interpSeries (l.map fun r => getFeat r f))).map
    fun fs => (fs.1, fs.2.getD q.1 none)).lookup f).join = _
  rw [List.map_map]
  have hcomp : ((fun fs : String × List (Option ℚ) => (fs.1, fs.2.getD q.1 none)) ∘
      fun f0 => (f0, interpSeries (l.map fun r => getFeat r f0))) =
      fun f0 => (f0, (interpSeries (l.map fun r => getFeat r f0)).getD q.1 none) := rfl
  rw [hcomp, lookup_graph (fun f0 =>
    (interpSeries (l.map fun r => getFeat r f0)).getD q.1 none) feats f]
  by_cases hm : f ∈ feats
  · rw [if_pos hm, if_pos hm]
    show ((interpSeries (l.map fun r => getFeat r f)).getD q.1 none) = _
    unfold interpSeries
    rw [List.getD_eq_getElem?_getD, List.getElem?_map,
      List.getElem?_range (by simpa using hlen)]
    rfl
  · rw [if_neg hm, if_neg hm]
    rfl

theorem countryBlock_eq (feats : List String) (c : String) (rs : List PRow)
    (h : (rs.map fun r => r.year).Nodup) :
    countryBlock feats c rs =
      (((yearRange (minYearOf rs) (maxYearOf rs)).map fun y =>
        match rs.find? fun r : PRow => r.year == y with
        | some r => PRow.mk c y r.feats
        | none => PRow.mk c y []).enum.map fun p =>
        PRow.mk c p.2.year
          ((feats.map fun f => (f, interpSeries
            (((yearRange (minYearOf rs) (maxYearOf rs)).map fun y =>
              match rs.find? fun r : PRow => r.year == y with
              | some r => PRow.mk c y r.feats
              | none => PRow.mk c y []).map fun r => getFeat r f))).map
            fun fs => (fs.1, fs.2.getD p.1 none))) := by
  unfold countryBlock
  rw [joined_eq_map c rs h]

theorem countryBlock_row_spec (feats : List String) (c : String) (rs : List PRow)
    (h : (rs.map fun r => r.year).Nodup) (rOut : PRow)
    (hr : rOut ∈ countryBlock feats c rs) :
    ∃ i : Nat, i < (maxYearOf rs - minYearOf rs).toNat + 1 ∧
      rOut.year = minYearOf rs + (i : Int) ∧
      ∀ f : String, getFeat rOut f =
        if f ∈ feats then
          interpAt (knownPoints 0 ((yearRange (minYearOf rs) (maxYearOf rs)).map
            (origFeat rs f))) i
        else none := by
  rw [countryBlock_eq feats c rs h] at hr
  obtain ⟨i, hi, hy, hv⟩ := block_body_spec feats c _ rOut hr
  rw [List.length_map, yearRange_length] at hi
  refine ⟨i, hi, ?_, ?_⟩
  · rw [List.getElem?_map, yearRange_getElem _ _ i hi] at hy
    have hy2 : some ((match rs.find? fun r : PRow =>
        r.year == minYearOf rs + (i : Int) with
      | some r => PRow.mk c (minYearOf rs + (i : Int)) r.feats
      | none => PRow.mk c (minYearOf rs + (i : Int)) []).year) = some rOut.year := hy
    rw [jrow_year] at hy2
    exact (Option.some.injEq .. ▸ hy2).symm
  · intro f
    rw [hv f]
    by_cases hm : f ∈ feats
    · rw [if_pos hm, if_pos hm]
      have hmap : (((yearRange (minYearOf rs) (maxYearOf rs)).map fun y =>
          match rs.find? fun r : PRow => r.year == y with
          | some r => PRow.mk c y r.feats
          | none => PRow.mk c y []).map fun r => getFeat r f) =
          (yearRange (minYearOf rs) (maxYearOf rs)).map (origFeat rs f) := by
        rw [List.map_map]
        apply List.map_congr_left
        intro y _
        exact getFeat_jrow rs c f y
      rw [hmap]
    · rw [if_neg hm, if_neg hm]

theorem interp_blocks (p : PTable) :
    interpolate_missing_years p =
      if (TARGET_COUNTRIES.filterMap fun c =>
          if (p.rows.filter fun r => r.country == c).isEmpty then none
          else some (countryBlock p.feats c
            (p.rows.filter fun r => r.country == c))).isEmpty
      then p
      else ⟨p.feats, (TARGET_COUNTRIES.filterMap fun c =>
          if (p.rows.filter fun r => r.country == c).isEmpty then none
          else some (countryBlock p.feats c
            (p.rows.filter fun r => r.country == c))).flatten⟩ := by
  unfold interpolate_missing_years
  rfl

theorem blocks_filter (p : PTable) (c : String) :
    ∀ cs : List String, cs.Nodup →
      ((cs.filterMap fun c2 =>
        if (p.rows.filter fun r => r.country == c2).isEmpty then none
        else some (countryBlock p.feats c2
          (p.rows.filter fun r => r.country == c2))).flatten.filter
        fun r => r.country == c) =
      (if c ∈ cs ∧ (p.rows.filter fun r => r.country == c).isEmpty = false then
        countryBlock p.feats c (p.rows.filter fun r => r.country == c)
      else [])
  | [], _ => by simp
  | c2 :: cs, hnd => by
    rw [List.nodup_cons] at hnd
    by_cases he : (p.rows.filter fun r => r.country == c2).isEmpty = true
    · have hstep : List.filterMap (fun c3 : String =>
          if (p.rows.filter fun r => r.country == c3).isEmpty then none
          else some (countryBlock p.feats c3
            (p.rows.filter fun r => r.country == c3))) (c2 :: cs) =
          List.filterMap (fun c3 : String =>
          if (p.rows.filter fun r => r.country == c3).isEmpty then none
          else some (countryBlock p.feats c3
            (p.rows.filter fun r => r.country == c3))) cs :=
        List.filterMap_cons_none (if_pos he)
      rw [hstep, blocks_filter p c cs hnd.2]
      by_cases hc : c = c2
      · subst hc
        have hcond : ¬(c ∈ c :: cs ∧
            (p.rows.filter fun r => r.country == c).isEmpty = false) := by
          rintro ⟨-, h2⟩
          rw [he] at h2
          exact Bool.noConfusion h2
        have hcond2 : ¬(c ∈ cs ∧
            (p.rows.filter fun r => r.country == c).isEmpty = false) := by
          rintro ⟨h1, -⟩
          exact hnd.1 h1
        rw [if_neg hcond, if_neg hcond2]
      · by_cases hm : c ∈ cs ∧ (p.rows.filter fun r => r.country == c).isEmpty = false
        · rw [if_pos hm, if_pos ⟨List.mem_cons_of_mem _ hm.1, hm.2⟩]
        · rw [if_neg hm, if_neg (fun hcon => hm ⟨by
            rcases List.mem_cons.mp hcon.1 with h1 | h1
            · exact absurd h1 hc
            · exact h1, hcon.2⟩)]
    · have hstep : List.filterMap (fun c3 : String =>
          if (p.rows.filter fun r => r.country == c3).isEmpty then none
          else some (countryBlock p.feats c3
            (p.rows.filter fun r => r.country == c3))) (c2 :: cs) =
          countryBlock p.feats c2 (p.rows.filter fun r => r.country == c2) ::
          List.filterMap (fun c3 : String =>
          if (p.rows.filter fun r => r.country == c3).isEmpty then none
          else some (countryBlock p.feats c3
            (p.rows.filter fun r => r.country == c3))) cs :=
        List.filterMap_cons_some (if_neg he)
      rw [hstep, List.flatten_cons, List.filter_append,
        blocks_filter p c cs hnd.2]
      by_cases hc : c = c2
      · subst hc
        have hfilt : ((countryBlock p.feats c
            (p.rows.filter fun r => r.country == c)).filter
            fun r => r.country == c) = countryBlock p.feats c
            (p.rows.filter fun r => r.country == c) := by
          rw [List.filter_eq_self]
          intro r hrm
          simpa using countryBlock_country _ _ _ r hrm
        have hcond2 : ¬(c ∈ cs ∧
            (p.rows.filter fun r => r.country == c).isEmpty = false) := by
          rintro ⟨h1, -⟩
          exact hnd.1 h1
        rw [hfilt, if_neg hcond2, if_pos ⟨List.mem_cons_self _ _,
          Bool.eq_false_iff.mpr he⟩, List.append_nil]
      · have hfilt : ((countryBlock p.feats c2
            (p.rows.filter fun r => r.country == c2)).filter
            fun r => r.country == c) = [] := by
          rw [List.filter_eq_nil_iff]
          intro r hrm hcc
          have h1 : r.country = c2 := countryBlock_country _ _ _ r hrm
          have h2 : r.country = c := by simpa using hcc
          exact hc (h2 ▸ h1)
        rw [hfilt, List.nil_append]
        by_cases hm : c ∈ cs ∧ (p.rows.filter fun r => r.country == c).isEmpty = false
        · rw [if_pos hm, if_pos ⟨List.mem_cons_of_mem _ hm.1, hm.2⟩]
        · rw [if_neg hm, if_neg (fun hcon => hm ⟨by
            rcases List.mem_cons.mp hcon.1 with h1 | h1
            · exact absurd h1 hc
            · exact h1, hcon.2⟩)]

theorem interpolate_country_rows (p : PTable) (c : String)
    (hc : c ∈ TARGET_COUNTRIES)
    (hne : (p.rows.filter fun r => r.country == c) ≠ []) :
    ((interpolate_missing_years p).rows.filter fun r => r.country == c) =
      countryBlock p.feats c (p.rows.filter fun r => r.country == c) := by
  rw [interp_blocks]
  have hbe : (TARGET_COUNTRIES.filterMap fun c2 =>
      if (p.rows.filter fun r => r.country == c2).isEmpty then none
      else some (countryBlock p.feats c2
        (p.rows.filter fun r => r.country == c2))).isEmpty = false := by
    rw [List.isEmpty_eq_false]
    intro hnil
    have hmem : countryBlock p.feats c (p.rows.filter fun r => r.country == c) ∈
        (TARGET_COUNTRIES.filterMap fun c2 =>
          if (p.rows.filter fun r => r.country == c2).isEmpty then none
          else some (countryBlock p.feats c2
            (p.rows.filter fun r => r.country == c2))) :=
      List.mem_filterMap.mpr ⟨c, hc, if_neg (by
        rw [Bool.not_eq_true, List.isEmpty_eq_false]
        exact hne)⟩
    rw [hnil] at hmem
    exact absurd hmem (List.not_mem_nil _)
  rw [if_neg (by rw [hbe]; exact Bool.noConfusion)]
  show ((TARGET_COUNTRIES.filterMap fun c2 =>
      if (p.rows.filter fun r => r.country == c2).isEmpty then none
      else some (countryBlock p.feats c2
        (p.rows.filter fun r => r.country == c2))).flatten.filter
      fun r => r.country == c) = _
  rw [blocks_filter p c TARGET_COUNTRIES (by decide)]
  rw [if_pos ⟨hc, List.isEmpty_eq_false.mpr hne⟩]

theorem interpolate_country_empty (p : PTable) (c2 : String)
    (hc : (p.rows.filter fun r => r.country == c2) = []) :
    ((interpolate_missing_years p).rows.filter fun r => r.country == c2) = [] := by
  rw [interp_blocks]
  by_cases hbe : (TARGET_COUNTRIES.filterMap fun c3 =>
      if (p.rows.filter fun r => r.country == c3).isEmpty then none
      else some (countryBlock p.feats c3
        (p.rows.filter fun r => r.country == c3))).isEmpty = true
  · rw [if_pos hbe]
    exact hc
  · rw [if_neg hbe]
    show ((TARGET_COUNTRIES.filterMap fun c3 =>
        if (p.rows.filter fun r => r.country == c3).isEmpty then none
        else some (countryBlock p.feats c3
          (p.rows.filter fun r => r.country == c3))).flatten.filter
        fun r => r.country == c2) = []
    rw [blocks_filter p c2 TARGET_COUNTRIES (by decide)]
    rw [if_neg (by
      rintro ⟨-, h2⟩
      rw [hc] at h2
      exact absurd h2 (by decide))]

theorem countryBlock_years (feats : List String) (c : String) (rs : List PRow)
    (h : (rs.map fun r => r.year).Nodup) :
    (countryBlock feats c rs).map (fun r => r.year) =
      yearRange (minYearOf rs) (maxYearOf rs) := by
  have hk := countryBlock_keys feats c rs h
  have h2 : ((countryBlock feats c rs).map rowKey).map Prod.snd =
      ((yearRange (minYearOf rs) (maxYearOf rs)).map fun y => (c, y)).map Prod.snd := by
    rw [hk]
  rw [List.map_map, List.map_map] at h2
  have h3 : (countryBlock feats c rs).map (Prod.snd ∘ rowKey) =
      (countryBlock feats c rs).map fun r => r.year := rfl
  have h4 : (yearRange (minYearOf rs) (maxYearOf rs)).map
      (Prod.snd ∘ fun y => (c, y)) =
      (yearRange (minYearOf rs) (maxYearOf rs)).map id := rfl
  rw [h3, h4, List.map_id] at h2
  exact h2

theorem origFeat_some_inv {rs : List PRow} {f : String} {y : Int} {x : ℚ}
    (h : origFeat rs f y = some x) :
    ∃ r0 ∈ rs, r0.year = y ∧ getFeat r0 f = some x := by
  unfold origFeat at h
  cases hf : rs.find? fun r => r.year == y with
  | none => rw [hf] at h; exact Option.noConfusion h
  | some r =>
    rw [hf] at h
    exact ⟨r, List.mem_of_find?_eq_some hf, by simpa using List.find?_some hf, h⟩

theorem knownPoints_of_row (rs : List PRow) (f : String) (r1 : PRow) (x1 : ℚ)
    (h : (rs.map fun r => r.year).Nodup) (hr1 : r1 ∈ rs)
    (hx1 : getFeat r1 f = some x1) :
    ((r1.year - minYearOf rs).toNat, x1) ∈
      knownPoints 0 ((yearRange (minYearOf rs) (maxYearOf rs)).map (origFeat rs f)) := by
  have hmn := minYearOf_le hr1
  have hmx := le_maxYearOf hr1
  rw [knownPoints_mem_iff]
  refine ⟨(r1.year - minYearOf rs).toNat, ?_, by omega, ?_⟩
  · rw [List.length_map, yearRange_length]
    omega
  · rw [List.getD_eq_getElem?_getD, List.getElem?_map,
      yearRange_getElem (minYearOf rs) (maxYearOf rs) _ (by omega)]
    show origFeat rs f (minYearOf rs + ((r1.year - minYearOf rs).toNat : Int)) = some x1
    have hy : minYearOf rs + ((r1.year - minYearOf rs).toNat : Int) = r1.year := by omega
    rw [hy]
    unfold origFeat
    rw [find?_year_of_mem h hr1]
    exact hx1

theorem knownPoints_inv (rs : List PRow) (f : String) (q : Nat × ℚ)
    (hq : q ∈ knownPoints 0 ((yearRange (minYearOf rs) (maxYearOf rs)).map
      (origFeat rs f))) :
    ∃ r0 ∈ rs, r0.year = minYearOf rs + (q.1 : Int) ∧ getFeat r0 f = some q.2 := by
  have hq2 : (q.1, q.2) ∈ knownPoints 0
      ((yearRange (minYearOf rs) (maxYearOf rs)).map (origFeat rs f)) := hq
  rw [knownPoints_mem_iff] at hq2
  obtain ⟨i, hi, hji, hv⟩ := hq2
  rw [List.length_map, yearRange_length] at hi
  rw [List.getD_eq_getElem?_getD, List.getElem?_map,
    yearRange_getElem (minYearOf rs) (maxYearOf rs) i hi] at hv
  have hv2 : origFeat rs f (minYearOf rs + (i : Int)) = some q.2 := hv
  obtain ⟨r0, hr0, hy0, hx0⟩ := origFeat_some_inv hv2
  obtain rfl : q.1 = i := by omega
  exact ⟨r0, hr0, hy0, hx0⟩

/-- C1: for every canonical country with at least one row in the merged table
(whose keys are unique and whose rows carry only declared feature columns),
the interpolator output for that country has exactly one row per integer year
from the country's minimum to its maximum observed year (`max - min + 1` rows,
in ascending order, none outside the range); countries with zero rows produce
nothing; and each feature of each output row is: still missing when the
country never observes the feature, the observed value at an observed year,
the nearest known value beyond the first or last known year (flat
extrapolation), and the linear interpolant between the two known values that
bracket an interior gap.  On the §8 example (United States, 2018 A=10 and
2022 A=30) the output is exactly 2018..2022 with A = 10, 15, 20, 25, 30, and
no 2015 row. -/
theorem C1_interpolator (p : PTable) (c : String)
    (hkeys : (panelKeys p).Nodup)
    (hc : c ∈ TARGET_COUNTRIES)
    (hne : obsRows p c ≠ [])
    (hsub : featsSubset p) :
    ((outRows p c).map fun r => r.year) =
      yearRange (minYearOf (obsRows p c)) (maxYearOf (obsRows p c)) ∧
    (outRows p c).length =
      (maxYearOf (obsRows p c) - minYearOf (obsRows p c)).toNat + 1 ∧
    (∀ c2 : String, obsRows p c2 = [] → outRows p c2 = []) ∧
    (∀ rOut ∈ outRows p c, ∀ f : String,
      ((∀ r0 ∈ obsRows p c, getFeat r0 f = none) → getFeat rOut f = none) ∧
      (∀ r0 ∈ obsRows p c, r0.year = rOut.year → ∀ x : ℚ,
        getFeat r0 f = some x → getFeat rOut f = some x) ∧
      (∀ r1 ∈ obsRows p c, ∀ x1 : ℚ, getFeat r1 f = some x1 →
        (∀ r0 ∈ obsRows p c, getFeat r0 f ≠ none → r1.year ≤ r0.year) →
        rOut.year < r1.year → getFeat rOut f = some x1) ∧
      (∀ r2 ∈ obsRows p c, ∀ x2 : ℚ, getFeat r2 f = some x2 →
        (∀ r0 ∈ obsRows p c, getFeat r0 f ≠ none → r0.year ≤ r2.year) →
        r2.year < rOut.year → getFeat rOut f = some x2) ∧
      (∀ r1 ∈ obsRows p c, ∀ r2 ∈ obsRows p c, ∀ x1 x2 : ℚ,
        getFeat r1 f = some x1 → getFeat r2 f = some x2 →
        r1.year < rOut.year → rOut.year < r2.year →
        (∀ r0 ∈ obsRows p c, getFeat r0 f ≠ none →
          r0.year ≤ r1.year ∨ r2.year ≤ r0.year) →
        getFeat rOut f = some (x1 + (x2 - x1) *
          ((rOut.year - r1.year : Int) : ℚ) / ((r2.year - r1.year : Int) : ℚ)))) ∧
    ((interpolate_missing_years exPanelInterp).rows.map
        fun r => (r.country, r.year, getFeat r "A")) =
      [("United States", 2018, some 10), ("United States", 2019, some 15),
       ("United States", 2020, some 20), ("United States", 2021, some 25),
       ("United States", 2022, some 30)] := by
  have hnodc : ((obsRows p c).map fun r => r.year).Nodup :=
    filter_country_years_nodup p c hkeys
  have hblock : outRows p c = countryBlock p.feats c (obsRows p c) :=
    interpolate_country_rows p c hc hne
  have hyears : ((outRows p c).map fun r => r.year) =
      yearRange (minYearOf (obsRows p c)) (maxYearOf (obsRows p c)) := by
    rw [hblock]
    exact countryBlock_years p.feats c (obsRows p c) hnodc
  refine ⟨hyears, ?_, ?_, ?_, ?_⟩
  · have hlen := congrArg List.length hyears
    rw [List.length_map, yearRange_length] at hlen
    exact hlen
  · intro c2 h2
    exact interpolate_country_empty p c2 h2
  · intro rOut hrOut f
    rw [hblock] at hrOut
    obtain ⟨i, hi, hyear, hval⟩ :=
      countryBlock_row_spec p.feats c (obsRows p c) hnodc rOut hrOut
    refine ⟨?_, ?_, ?_, ?_, ?_⟩
    · intro hall
      rw [hval f]
      by_cases hm : f ∈ p.feats
      · rw [if_pos hm]
        have hK : knownPoints 0 ((yearRange (minYearOf (obsRows p c))
            (maxYearOf (obsRows p c))).map (origFeat (obsRows p c) f)) = [] := by
          apply knownPoints_nil_of_all_none
          intro o ho
          obtain ⟨y, hy, rfl⟩ := List.mem_map.mp ho
          unfold origFeat
          cases hf : (obsRows p c).find? fun r => r.year == y with
          | none => rfl
          | some r => exact hall r (List.mem_of_find?_eq_some hf)
        rw [hK]
        rfl
      · rw [if_neg hm]
    · intro r0 hr0 hy0 x hx
      have hmf : f ∈ p.feats := by
        obtain ⟨kv, hkv, hkvf⟩ := List.mem_map.mp (getFeat_some_mem_keys hx)
        exact hkvf ▸ hsub r0 (List.mem_of_mem_filter hr0) kv hkv
      rw [hval f, if_pos hmf]
      have hmem := knownPoints_of_row (obsRows p c) f r0 x hnodc hr0 hx
      have hmn0 := minYearOf_le hr0
      have hidx : (r0.year - minYearOf (obsRows p c)).toNat = i := by omega
      rw [hidx] at hmem
      exact interpAt_known _ (knownPoints_sorted 0 _) i x hmem
    · intro r1 hr1 x1 hx1 hmin hlt
      have hmf : f ∈ p.feats := by
        obtain ⟨kv, hkv, hkvf⟩ := List.mem_map.mp (getFeat_some_mem_keys hx1)
        exact hkvf ▸ hsub r1 (List.mem_of_mem_filter hr1) kv hkv
      rw [hval f, if_pos hmf]
      have hmem := knownPoints_of_row (obsRows p c) f r1 x1 hnodc hr1 hx1
      have hmn1 := minYearOf_le hr1
      rw [hyear] at hlt
      apply interpAt_of_lt_all _ i ((r1.year - minYearOf (obsRows p c)).toNat) x1
      · apply head?_eq_of_min _ (knownPoints_sorted 0 _) _ _ hmem
        intro q hq
        obtain ⟨r0, hr0, hy0, hx0⟩ := knownPoints_inv (obsRows p c) f q hq
        have h1 : r1.year ≤ r0.year := hmin r0 hr0 (by simp [hx0])
        omega
      · intro q hq
        obtain ⟨r0, hr0, hy0, hx0⟩ := knownPoints_inv (obsRows p c) f q hq
        have h1 : r1.year ≤ r0.year := hmin r0 hr0 (by simp [hx0])
        omega
    · intro r2 hr2 x2 hx2 hmax hlt
      have hmf : f ∈ p.feats := by
        obtain ⟨kv, hkv, hkvf⟩ := List.mem_map.mp (getFeat_some_mem_keys hx2)
        exact hkvf ▸ hsub r2 (List.mem_of_mem_filter hr2) kv hkv
      rw [hval f, if_pos hmf]
      have hmem := knownPoints_of_row (obsRows p c) f r2 x2 hnodc hr2 hx2
      have hmn2 := minYearOf_le hr2
      rw [hyear] at hlt
      apply interpAt_of_all_lt _ i ((r2.year - minYearOf (obsRows p c)).toNat) x2
      · apply getLast?_eq_of_max _ (knownPoints_sorted 0 _) _ _ hmem
        intro q hq
        obtain ⟨r0, hr0, hy0, hx0⟩ := knownPoints_inv (obsRows p c) f q hq
        have h1 : r0.year ≤ r2.year := hmax r0 hr0 (by simp [hx0])
        omega
      · intro q hq
        obtain ⟨r0, hr0, hy0, hx0⟩ := knownPoints_inv (obsRows p c) f q hq
        have h1 : r0.year ≤ r2.year := hmax r0 hr0 (by simp [hx0])
        omega
    · intro r1 hr1 r2 hr2 x1 x2 hx1 hx2 hlt1 hlt2 hgap
      have hmf : f ∈ p.feats := by
        obtain ⟨kv, hkv, hkvf⟩ := List.mem_map.mp (getFeat_some_mem_keys hx1)
        exact hkvf ▸ hsub r1 (List.mem_of_mem_filter hr1) kv hkv
      rw [hval f, if_pos hmf]
      have hmem1 := knownPoints_of_row (obsRows p c) f r1 x1 hnodc hr1 hx1
      have hmem2 := knownPoints_of_row (obsRows p c) f r2 x2 hnodc hr2 hx2
      have hmn1 := minYearOf_le hr1
      have hmn2 := minYearOf_le hr2
      rw [hyear] at hlt1 hlt2
      have hjlt : (r1.year - minYearOf (obsRows p c)).toNat <
          (r2.year - minYearOf (obsRows p c)).toNat := by omega
      have hno : ∀ q ∈ knownPoints 0 ((yearRange (minYearOf (obsRows p c))
          (maxYearOf (obsRows p c))).map (origFeat (obsRows p c) f)),
          ¬((r1.year - minYearOf (obsRows p c)).toNat < q.1 ∧
            q.1 < (r2.year - minYearOf (obsRows p c)).toNat) := by
        rintro q hq ⟨hq1, hq2⟩
        obtain ⟨r0, hr0, hy0, hx0⟩ := knownPoints_inv (obsRows p c) f q hq
        rcases hgap r0 hr0 (by simp [hx0]) with hg | hg
        · omega
        · omega
      obtain ⟨A, B, hAB⟩ := adjacent_decomp _ (knownPoints_sorted 0 _) _ _ x1 x2
        hmem1 hmem2 hjlt hno
      rw [hAB, interpAt_mid A B _ _ i x1 x2 (hAB ▸ knownPoints_sorted 0 _)
        (by omega) (by omega)]
      have hqi : (i : ℚ) = (rOut.year : ℚ) - (minYearOf (obsRows p c) : ℚ) := by
        have h0 : ((i : Int) : ℚ) =
            ((rOut.year - minYearOf (obsRows p c) : Int) : ℚ) := by
          have h1 : (i : Int) = rOut.year - minYearOf (obsRows p c) := by omega
          rw [h1]
        push_cast at h0
        exact h0
      have hq1 : (((r1.year - minYearOf (obsRows p c)).toNat : ℚ)) =
          (r1.year : ℚ) - (minYearOf (obsRows p c) : ℚ) := by
        have h0 : (((r1.year - minYearOf (obsRows p c)).toNat : Int) : ℚ) =
            ((r1.year - minYearOf (obsRows p c) : Int) : ℚ) := by
          have h1 : ((r1.year - minYearOf (obsRows p c)).toNat : Int) =
              r1.year - minYearOf (obsRows p c) := by omega
          rw [h1]
        push_cast at h0
        exact h0
      have hq2 : (((r2.year - minYearOf (obsRows p c)).toNat : ℚ)) =
          (r2.year : ℚ) - (minYearOf (obsRows p c) : ℚ) := by
        have h0 : (((r2.year - minYearOf (obsRows p c)).toNat : Int) : ℚ) =
            ((r2.year - minYearOf (obsRows p c) : Int) : ℚ) := by
          have h1 : ((r2.year - minYearOf (obsRows p c)).toNat : Int) =
              r2.year - minYearOf (obsRows p c) := by omega
          rw [h1]
        push_cast at h0
        exact h0
      congr 1
      push_cast
      rw [hqi, hq1, hq2]
      ring
  · norm_num +decide [interpolate_missing_years, countryBlock, exPanelInterp,
      TARGET_COUNTRIES, yearRange, minYearOf, maxYearOf, interpSeries,
      knownPoints, interpAt, getFeat, List.lookup, List.range, List.range.loop,
      List.filterMap_cons, List.filterMap_nil, List.enum, List.enumFrom]

/-- C1 witness: the interpolator theorem applied to the §8 United States
example, whose hypotheses hold by computation. -/
theorem C1_witness :
    ((interpolate_missing_years exPanelInterp).rows.map
        fun r => (r.country, r.year, getFeat r "A")) =
      [("United States", 2018, some 10), ("United States", 2019, some 15),
       ("United States", 2020, some 20), ("United States", 2021, some 25),
       ("United States", 2022, some 30)] :=
  (C1_interpolator exPanelInterp "United States" (by decide) (by decide)
    (by decide) (by unfold featsSubset; decide)).2.2.2.2

theorem pivotTableMean_value (tall : List TallRow) (rOut : PRow)
    (hrOut : rOut ∈ (pivotTableMean tall).rows) (f : String)
    (hf : f ∈ (pivotTableMean tall).feats) :
    getFeat rOut f = meanOf ((tall.filter fun q =>
      q.country == rOut.country && q.year == rOut.year && q.feature == f).map
      (·.value)) := by
  have hrOut2 : rOut ∈ (sortKeys ((tall.map fun r => (r.country, r.year)).dedup)).map
      fun k => PRow.mk k.1 k.2 ((sortStrs ((tall.map (·.feature)).dedup)).map fun f0 =>
        (f0, meanOf ((tall.filter fun r =>
          r.country == k.1 && r.year == k.2 && r.feature == f0).map (·.value)))) := hrOut
  obtain ⟨k, hk, rfl⟩ := List.mem_map.mp hrOut2
  have hf2 : f ∈ sortStrs ((tall.map (·.feature)).dedup) := hf
  show (((sortStrs ((tall.map (·.feature)).dedup)).map fun f0 =>
    (f0, meanOf ((tall.filter fun r =>
      r.country == k.1 && r.year == k.2 && r.feature == f0).map (·.value)))).lookup f).join = _
  rw [lookup_graph (fun f0 => meanOf ((tall.filter fun r =>
    r.country == k.1 && r.year == k.2 && r.feature == f0).map (·.value)))
    (sortStrs ((tall.map (·.feature)).dedup)) f]
  rw [if_pos hf2]
  rfl

theorem msti_spec_eq (t : RawTable) (rc tc mc vc uc : String)
    (hd : detectOecdCols t.cols = ⟨some rc, some tc, some mc, some vc, some uc⟩)
    (hrc : (rc == "") = false) (htc : (tc == "") = false) (hmc : (mc == "") = false)
    (hvc : (vc == "") = false) (huc : (uc == "") = false)
    (hne1 : ((t.rows.filter fun r =>
      decide (cellToStr (getCell t r mc) ∈ MSTI_MEASURE_CODES)).isEmpty) = false)
    (hne3 : (((t.rows.filter fun r => mstiRowSurvivesSpec t mc uc true r).filterMap fun r =>
      match standardizeCell (getCell t r rc) with
      | some c => if c ∈ TARGET_COUNTRIES then some (c, r) else none
      | none => none).isEmpty) = false) :
    process_oecd_msti (some t) =
      pivotTableMean ((t.rows.filter fun r =>
        mstiRowSurvivesSpec t mc uc true r).filterMap fun r =>
        match standardizeCell (getCell t r rc) with
        | some c =>
          if c ∈ TARGET_COUNTRIES then
            match toNumeric (getCell t r tc) with
            | none => none
            | some y => (mstiFeatureOf (cellToStr (getCell t r mc))).map fun f =>
                TallRow.mk c (yearToInt y) f (toNumeric (getCell t r vc))
          else none
        | none => none) := by
  have hff : List.filter (fun r => mstiUnitMask (cellToStr (getCell t r uc)))
      (List.filter (fun r =>
        decide (cellToStr (getCell t r mc) ∈ MSTI_MEASURE_CODES)) t.rows) =
      List.filter (fun r => mstiRowSurvivesSpec t mc uc true r) t.rows := by
    rw [List.filter_filter]
    apply List.filter_congr
    intro x _
    simp [mstiRowSurvivesSpec, Bool.and_comm]
  simp only [process_oecd_msti, hd, truthyCol, bne, hrc, htc, hmc, hvc, huc,
    Bool.not_false, Bool.and_self, Bool.and_true, Bool.true_and, Bool.not_true,
    Option.getD_some, if_true, hff, hne1, hne3, Bool.false_eq_true, if_false]
  rw [List.filterMap_filterMap]
  apply congrArg
  apply List.filterMap_congr
  intro r hr
  cases hsc : standardizeCell (getCell t r rc) with
  | none => simp only [hsc]; rfl
  | some c =>
    simp only [hsc]
    by_cases hcm : c ∈ TARGET_COUNTRIES
    · rw [if_pos hcm, if_pos hcm]
      rfl
    · rw [if_neg hcm, if_neg hcm]
      rfl


/-- C7: the R&D adapter keeps exactly the rows whose measure code is in the
two-code allow-list (`G`, `T_RS` — precisely the codes the feature map
accepts) and, the unit column having been detected, whose unit contains a
PPP / FTE / headcount keyword case-insensitively (OR-combined); surviving
rows are pivoted with arithmetic-mean aggregation over each
(Country, Year, Feature) group, as the concrete example's two GERD rows
(10 and 20) averaging to 15 show. -/
theorem C7_msti_filter_and_mean (t : RawTable) (rc tc mc vc uc : String)
    (hd : detectOecdCols t.cols = ⟨some rc, some tc, some mc, some vc, some uc⟩)
    (hrc : (rc == "") = false) (htc : (tc == "") = false) (hmc : (mc == "") = false)
    (hvc : (vc == "") = false) (huc : (uc == "") = false)
    (hne1 : ((t.rows.filter fun r =>
      decide (cellToStr (getCell t r mc) ∈ MSTI_MEASURE_CODES)).isEmpty) = false)
    (hne3 : (((t.rows.filter fun r =>
      mstiRowSurvivesSpec t mc uc true r).filterMap fun r =>
      match standardizeCell (getCell t r rc) with
      | some c => if c ∈ TARGET_COUNTRIES then some (c, r) else none
      | none => none).isEmpty) = false) :
    (∀ m : String, (mstiFeatureOf m).isSome = true ↔ m ∈ MSTI_MEASURE_CODES) ∧
    process_oecd_msti (some t) =
      pivotTableMean ((t.rows.filter fun r =>
        mstiRowSurvivesSpec t mc uc true r).filterMap fun r =>
        match standardizeCell (getCell t r rc) with
        | some c =>
          if c ∈ TARGET_COUNTRIES then
            match toNumeric (getCell t r tc) with
            | none => none
            | some y => (mstiFeatureOf (cellToStr (getCell t r mc))).map fun f =>
                TallRow.mk c (yearToInt y) f (toNumeric (getCell t r vc))
          else none
        | none => none) ∧
    (∀ tall : List TallRow, ∀ rOut ∈ (pivotTableMean tall).rows,
      ∀ f ∈ (pivotTableMean tall).feats,
      getFeat rOut f = meanOf ((tall.filter fun q =>
        q.country == rOut.country && q.year == rOut.year && q.feature == f).map
        (·.value))) ∧
    process_oecd_msti (some exMstiTable) =
      ⟨["GERD_Million_USD", "Researchers"],
       [⟨"China", 2020, [("GERD_Million_USD", some 15), ("Researchers", some 7)]⟩]⟩ := by
  refine ⟨?_, msti_spec_eq t rc tc mc vc uc hd hrc htc hmc hvc huc hne1 hne3,
    fun tall rOut hrOut f hf => pivotTableMean_value tall rOut hrOut f hf, ?_⟩
  · intro m
    unfold mstiFeatureOf MSTI_MEASURE_CODES
    by_cases h1 : m = "G"
    · subst h1
      simp
    · by_cases h2 : m = "T_RS"
      · subst h2
        simp
      · have b1 : (m == "G") = false := by simpa using h1
        have b2 : (m == "T_RS") = false := by simpa using h2
        simp [b1, b2, h1, h2]
  · rw [msti_spec_eq exMstiTable "REF_AREA" "TIME_PERIOD" "MEASURE2" "OBS_VALUE"
      "UNIT" rfl (by decide) (by decide) (by decide) (by decide) (by decide)
      (by decide) (by decide)]
    have h2 : ((exMstiTable.rows.filter fun r =>
        mstiRowSurvivesSpec exMstiTable "MEASURE2" "UNIT" true r).filterMap fun r =>
        match standardizeCell (getCell exMstiTable r "REF_AREA") with
        | some c =>
          if c ∈ TARGET_COUNTRIES then
            match toNumeric (getCell exMstiTable r "TIME_PERIOD") with
            | none => none
            | some y => (mstiFeatureOf
                (cellToStr (getCell exMstiTable r "MEASURE2"))).map fun f =>
                TallRow.mk c (yearToInt y) f
                  (toNumeric (getCell exMstiTable r "OBS_VALUE"))
          else none
        | none => none) =
        [⟨"China", 2020, "GERD_Million_USD", some 10⟩,
         ⟨"China", 2020, "GERD_Million_USD", some 20⟩,
         ⟨"China", 2020, "Researchers", some 7⟩] := by decide
    rw [h2]
    norm_num +decide [pivotTableMean, sortKeys, sortStrs, meanOf,
      List.insertionSort, List.orderedInsert, List.dedup,
      List.filterMap_cons, List.filterMap_nil]

/-- C7 witness: the R&D adapter theorem applied to the concrete OECD MSTI
source, whose detection and nonemptiness hypotheses hold by computation. -/
theorem C7_witness :
    process_oecd_msti (some exMstiTable) =
      ⟨["GERD_Million_USD", "Researchers"],
       [⟨"China", 2020, [("GERD_Million_USD", some 15), ("Researchers", some 7)]⟩]⟩ :=
  (C7_msti_filter_and_mean exMstiTable "REF_AREA" "TIME_PERIOD" "MEASURE2"
    "OBS_VALUE" "UNIT" rfl (by decide) (by decide) (by decide) (by decide)
    (by decide) (by decide) (by decide)).2.2.2

theorem pivotTableMax_value (tall : List TallRow) (rOut : PRow)
    (hrOut : rOut ∈ (pivotTableMax tall).rows) (f : String)
    (hf : f ∈ (pivotTableMax tall).feats) :
    getFeat rOut f = maxOf ((tall.filter fun q =>
      q.country == rOut.country && q.year == rOut.year && q.feature == f).map
      (·.value)) := by
  have hrOut2 : rOut ∈ (sortKeys ((tall.map fun r => (r.country, r.year)).dedup)).map
      fun k => PRow.mk k.1 k.2 ((sortStrs ((tall.map (·.feature)).dedup)).map fun f0 =>
        (f0, maxOf ((tall.filter fun r =>
          r.country == k.1 && r.year == k.2 && r.feature == f0).map (·.value)))) := hrOut
  obtain ⟨k, hk, rfl⟩ := List.mem_map.mp hrOut2
  have hf2 : f ∈ sortStrs ((tall.map (·.feature)).dedup) := hf
  show (((sortStrs ((tall.map (·.feature)).dedup)).map fun f0 =>
    (f0, maxOf ((tall.filter fun r =>
      r.country == k.1 && r.year == k.2 && r.feature == f0).map (·.value)))).lookup f).join = _
  rw [lookup_graph (fun f0 => maxOf ((tall.filter fun r =>
    r.country == k.1 && r.year == k.2 && r.feature == f0).map (·.value)))
    (sortStrs ((tall.map (·.feature)).dedup)) f]
  rw [if_pos hf2]
  rfl

theorem stanford_single_file (name : String) (t : RawTable)
    (hcsv : endsWithStr name ".csv" = true) (hnz : (t.rows.isEmpty) = false) :
    process_stanford_ai_index (some [(name, some t)]) =
      if hasCountryInFirst20 t && !(stanfordYearColNames t).isEmpty then
        (if (meltStanfordFile name t).isEmpty then emptyStanford
         else pivotTableMax ((meltStanfordFile name t).map fun e =>
           TallRow.mk e.country e.year (classify_feature e.sourceFile) e.value))
      else emptyStanford := by
  simp only [process_stanford_ai_index, List.filter_cons, List.filter_nil, hcsv,
    if_true, List.flatMap_cons, List.flatMap_nil, hnz, Bool.false_eq_true, if_false,
    List.append_nil]
  by_cases hrel : (hasCountryInFirst20 t && !(stanfordYearColNames t).isEmpty) = true
  · rw [if_pos hrel]
    rw [if_pos hrel]
  · rw [if_neg hrel, if_neg hrel]
    rfl

/-- C8 counterexample: the file whose only year-like column is named `02010`
has no 4-digit year-string column at all, yet the adapter treats it as
relevant and extracts its China row — the code tests `isdigit` plus an
integer range, not 4-digit-ness. -/
theorem C8_counterexample :
    (exAiFileZeros.cols.any isFourDigitYearName) = false ∧
    process_stanford_ai_index (some [("odd.csv", some exAiFileZeros)]) =
      ⟨["AI_Metric"], [⟨"China", 2010, [("AI_Metric", some 7)]⟩]⟩ := by decide

/-- C8 (amended): a non-empty `.csv` file's contribution is gated exactly by
the code's relevance test — some all-digit column name whose integer value
lies in [2010, 2024] (4-digit-ness is not required) together with a target
country among the first 20 first-column values; every 4-digit year string in
range does pass the year-column test; and same-key same-feature values from
several files are aggregated by maximum, not sum — two patent files
contributing 3 and 5 at (China, 2015) yield 5. -/
theorem C8_stanford_relevance_and_max (name : String) (t : RawTable)
    (hcsv : endsWithStr name ".csv" = true) (hnz : (t.rows.isEmpty) = false) :
    process_stanford_ai_index (some [(name, some t)]) =
      (if hasCountryInFirst20 t && !(stanfordYearColNames t).isEmpty then
        (if (meltStanfordFile name t).isEmpty then emptyStanford
         else pivotTableMax ((meltStanfordFile name t).map fun e =>
           TallRow.mk e.country e.year (classify_feature e.sourceFile) e.value))
       else emptyStanford) ∧
    (∀ c0 ∈ t.cols, isFourDigitYearName c0 = true → c0 ∈ stanfordYearColNames t) ∧
    (∀ tall : List TallRow, ∀ rOut ∈ (pivotTableMax tall).rows,
      ∀ f ∈ (pivotTableMax tall).feats,
      getFeat rOut f = maxOf ((tall.filter fun q =>
        q.country == rOut.country && q.year == rOut.year && q.feature == f).map
        (·.value))) ∧
    process_stanford_ai_index
        (some [("a_patent.csv", some exAiFilePat1),
               ("b_patent.csv", some exAiFilePat2)]) =
      ⟨["AI_Patents"], [⟨"China", 2015, [("AI_Patents", some 5)]⟩]⟩ := by
  refine ⟨stanford_single_file name t hcsv hnz, ?_,
    fun tall rOut hrOut f hf => pivotTableMax_value tall rOut hrOut f hf, by decide⟩
  intro c0 hc0 h4
  unfold stanfordYearColNames
  refine List.mem_filter.mpr ⟨hc0, ?_⟩
  unfold isFourDigitYearName at h4
  simp only [Bool.and_eq_true] at h4
  simp only [Bool.and_eq_true]
  obtain ⟨⟨⟨hlen, hdig⟩, hge⟩, hle⟩ := h4
  exact ⟨⟨hdig, hge⟩, hle⟩

/-- C8 witness: the amended theorem applied to the `02010` file, whose
hypotheses hold by computation; the extracted conjunct is the two-file
maximum example. -/
theorem C8_witness :
    process_stanford_ai_index
        (some [("a_patent.csv", some exAiFilePat1),
               ("b_patent.csv", some exAiFilePat2)]) =
      ⟨["AI_Patents"], [⟨"China", 2015, [("AI_Patents", some 5)]⟩]⟩ :=
  (C8_stanford_relevance_and_max "odd.csv" exAiFileZeros (by decide)
    (by decide)).2.2.2
